import Mathlib

/-!
Verification of the SpellsBot search/sourcing core.

This file gives a shallow embedding, in Lean, of the data-access layer of the
SpellsBot repository (`spells_bot/search/sourcing/database.py`,
`spells_bot/search/sourcing/spellsource.py`,
`spells_bot/search/sourcing/html2image.py`, `spells_bot/search/spell_search.py`)
and proves or refutes the behavioural claims made by the specification.

Modelling conventions:
* SQLAlchemy tables become Lean lists of record structures; a unique column
  becomes an explicit conflict check on insertion, mirroring the
  `IntegrityError` behaviour of the code.
* Auto-increment surrogate ids that never appear in a pydantic `to_orm`
  payload are left out of the row structures; identity is carried by the
  declared unique key (`alias` for spells, `id` for classes and schools).
* Python dicts (JSON columns, keyword maps) become association lists with
  python-dict update semantics (insertion order kept, assignment to an
  existing key overwrites in place, new keys are appended).
* Exceptions become `Except`/`Option` results; a raised statement commits
  nothing, matching the per-item `commit` granularity of the code.
-/

namespace SpellsBot

/-- Pydantic model `ClassInfo` (datatypes.py); also the row shape of the
`class` table, whose `to_orm` payload carries every field including `id`. -/
structure ClassInfo where
  id : Int
  alias' : String
  book_abbreviation : String
  book_alias : String
  short_description : String
  name : String
  is_own_spell_list : Option Bool
  max_spell_lvl : Option Int
  parent_class_ids : List Int
deriving DecidableEq, Repr

/-- Pydantic model `ClassInfoSpellRestriction`: a `ClassInfo` plus the spell
level restriction for one spell. -/
structure ClassInfoSpellRestriction extends ClassInfo where
  level : Int
deriving DecidableEq, Repr

/-- Pydantic model `SchoolInfo`; also the row shape of the `school` table. -/
structure SchoolInfo where
  id : Int
  name : String
  type_id : Int
  type_name : String
deriving DecidableEq, Repr

/-- Pydantic model `BasicShortSpellInfo`: the scalar part of a short spell
record, shared between the orm row and the resolved value object. -/
structure BasicShortSpellInfo where
  alias' : String
  short_description_components : String
  book_abbreviation : String
  book_alias : String
  short_description : String
  name : String
  is_race_spell : Bool
deriving DecidableEq, Repr

/-- Pydantic model `ShortSpellInfo`: basic fields plus resolved school and
class associations. -/
structure ShortSpellInfo extends BasicShortSpellInfo where
  schools : List SchoolInfo
  classes : List ClassInfoSpellRestriction
deriving DecidableEq, Repr

/-- Row of the `short_spell_info` table, as produced by
`ShortSpellInfo.to_orm`: `schools` is a JSON list of school ids and `classes`
a JSON object mapping class id to level.  The auto-increment `id` column is
not part of the `to_orm` payload and is omitted. -/
structure ShortSpellRow where
  alias' : String
  short_description_components : String
  book_abbreviation : String
  book_alias : String
  short_description : String
  schools : List Int
  classes : List (Int × Int)
  name : String
  is_race_spell : Bool
deriving DecidableEq, Repr

/-- Row of the `chat_settings` table: a chat id and the JSON book filter. -/
structure ChatRow where
  chat_id : Int
  book_filter : List (String × Bool)
deriving DecidableEq, Repr

/-- The observable state of the registry and chat-settings store backing
`Database` (database.py). -/
structure Store where
  classTable : List ClassInfo
  schoolTable : List SchoolInfo
  spellTable : List ShortSpellRow
  chatTable : List ChatRow
deriving DecidableEq, Repr

/-! ## Small utilities shared by the embedding -/

/-- Collect a list of optional values; `none` as soon as one entry is `none`.
Models a python loop whose body may raise `KeyError`. -/
def optList : List (Option α) → Option (List α)
  | [] => some []
  | none :: _ => none
  | some a :: t =>
    match optList t with
    | none => none
    | some as_ => some (a :: as_)

/-- Substring test on character lists: does `needle` occur inside `hay`?
Models the python `in` operator on strings. -/
def listContains [BEq α] (needle : List α) : List α → Bool
  | [] => needle.isEmpty
  | a :: t => needle.isPrefixOf (a :: t) || listContains needle t

/-- Model of python `str.lower()` (character-wise lowering). -/
def strLower (s : String) : String :=
  ⟨s.data.map Char.toLower⟩

/-- Model of the python test `needle in hay` for strings. -/
def strContains (hay needle : String) : Bool :=
  listContains needle.data hay.data

/-- Case-insensitive containment, the relation the specification's name
search property is phrased in. -/
def ciContains (name q : String) : Bool :=
  strContains (strLower name) (strLower q)

/-- Python-dict insertion for an `Int`-keyed JSON object: overwrite in place
when the key exists, append otherwise. -/
def dictInsertInt (d : List (Int × Int)) (k v : Int) : List (Int × Int) :=
  if d.any (fun p => decide (p.1 = k)) then
    d.map (fun p => if p.1 = k then (k, v) else p)
  else d ++ [(k, v)]

/-- Python-dict insertion for the `String`-keyed book filter. -/
def dictSet (d : List (String × Bool)) (k : String) (v : Bool) : List (String × Bool) :=
  if d.any (fun p => decide (p.1 = k)) then
    d.map (fun p => if p.1 = k then (k, v) else p)
  else d ++ [(k, v)]

/-- Value lookup in the book filter (first occurrence of the key). -/
def lookupVal (d : List (String × Bool)) (k : String) : Option Bool :=
  (d.find? (fun p => decide (p.1 = k))).map (·.2)

/-- `ShortSpellInfo.to_orm` (datatypes.py): scalar fields are copied, the
school objects collapse to their ids and the class restrictions to a python
dict from class id to level. -/
def spellToOrm (s : ShortSpellInfo) : ShortSpellRow where
  alias' := s.alias'
  short_description_components := s.short_description_components
  book_abbreviation := s.book_abbreviation
  book_alias := s.book_alias
  short_description := s.short_description
  schools := s.schools.map (·.id)
  classes := s.classes.foldl (fun d c => dictInsertInt d c.id c.level) []
  name := s.name
  is_race_spell := s.is_race_spell

/-- The basic scalar fields of a stored spell row, used to identify "the same
stored spell" across the orm boundary. -/
def basicRowOf (r : ShortSpellRow) : BasicShortSpellInfo where
  alias' := r.alias'
  short_description_components := r.short_description_components
  book_abbreviation := r.book_abbreviation
  book_alias := r.book_alias
  short_description := r.short_description
  name := r.name
  is_race_spell := r.is_race_spell

/-! ## Registry upsert (`Database.create_or_update_registry`)

`Database._create_or_update_registry_item` tries `db.add(...); db.commit()`
and, on `IntegrityError`, rolls back and issues an
`UPDATE ... WHERE key = item.key` with the full `to_orm` payload.  For
schools the only unique column is the primary key `id`; for spells it is the
unique `alias` (the surrogate `id` is auto-assigned and never conflicts).
For classes the table declares three unique columns: `id`, `alias` and
`name`, so the insert can fail because of a row with a different id, and the
fallback update itself can violate a unique constraint, in which case the
raised error aborts the whole registry call (only the add is wrapped in
try/except). -/

/-- Generic upsert into a list-table whose single conflict source is the key
`k`: insert when the key is absent, otherwise overwrite every field of the
matching rows in place. -/
def upsertBy (k : α → κ) [DecidableEq κ] (t : List α) (x : α) : List α :=
  if t.any (fun r => decide (k r = k x)) then
    t.map (fun r => if k r = k x then x else r)
  else t ++ [x]

/-- School-table upsert: `id` is the only unique column. -/
def schoolUpsert (t : List SchoolInfo) (s : SchoolInfo) : List SchoolInfo :=
  upsertBy SchoolInfo.id t s

/-- Spell-table upsert: the unique `alias` is the only conflict source (the
auto-increment `id` is not in the `to_orm` payload). -/
def spellUpsert (t : List ShortSpellRow) (s : ShortSpellRow) : List ShortSpellRow :=
  upsertBy ShortSpellRow.alias' t s

/-- Do two class rows collide on one of the unique columns of the `class`
table (`id`, `alias`, `name`)? -/
def classRowsConflict (a b : ClassInfo) : Bool :=
  decide (a.id = b.id) || decide (a.alias' = b.alias') || decide (a.name = b.name)

/-- Is the class table free of unique-column collisions?  Every state SQLite
ever reaches satisfies this. -/
def classTableOk : List ClassInfo → Bool
  | [] => true
  | c :: t => !(t.any (classRowsConflict c)) && classTableOk t

/-- One class upsert step.  The insert raises `IntegrityError` when some row
collides with the new item on `id`, `alias` or `name`; the fallback
`UPDATE ... WHERE id = item.id` overwrites the matching rows and itself
raises (uncaught, `Except.error`) when the overwritten table breaks a unique
constraint. -/
def classUpsert (t : List ClassInfo) (c : ClassInfo) : Except Unit (List ClassInfo) :=
  if t.any (classRowsConflict c) then
    let t2 := t.map (fun r => if r.id = c.id then c else r)
    if classTableOk t2 then Except.ok t2 else Except.error ()
  else Except.ok (t ++ [c])

/-- `Database._create_or_update_classes`: per-item commit; an uncaught error
in one update aborts the loop, keeping everything committed so far. -/
def runClassUpserts : List ClassInfo → List ClassInfo → List ClassInfo × Bool
  | [], t => (t, true)
  | c :: rest, t =>
    match classUpsert t c with
    | Except.ok t2 => runClassUpserts rest t2
    | Except.error _ => (t, false)

/-- `Database.create_or_update_registry`: classes, then schools, then spells.
The boolean reports whether the call ran to completion (no uncaught
`IntegrityError`); either way the returned store is what is committed. -/
def create_or_update_registry (spells : List ShortSpellInfo) (classes : List ClassInfo)
    (schools : List SchoolInfo) (st : Store) : Store × Bool :=
  match runClassUpserts classes st.classTable with
  | (ct, true) =>
    ({ st with
        classTable := ct
        schoolTable := schools.foldl schoolUpsert st.schoolTable
        spellTable := (spells.map spellToOrm).foldl spellUpsert st.spellTable }, true)
  | (ct, false) => ({ st with classTable := ct }, false)

/-- `Database.has_spell_list`: strictly more than `min_n` stored spell rows. -/
def has_spell_list (st : Store) (min_n : Nat) : Bool :=
  decide (st.spellTable.length > min_n)

/-! ## Chat settings (`Database` chat-settings helpers) -/

/-- `Database._get_chat_settings`: first row whose `chat_id` matches. -/
def lookupChat (ct : List ChatRow) (c : Int) : Option ChatRow :=
  ct.find? (fun r => decide (r.chat_id = c))

/-- `Database._iter_rulebooks`: distinct `book_alias` projection over the
stored spell rows. -/
def rulebooks (st : Store) : List String :=
  (st.spellTable.map (·.book_alias)).dedup

/-- The default book filter built by `Database._create_chat_settings`: every
known rulebook mapped to `False`, then `coreRulebook` and
`advancedPlayerGuide` forced to `True`. -/
def default_book_filter (books : List String) : List (String × Bool) :=
  dictSet (dictSet (books.map (fun b => (b, false))) "coreRulebook" true)
    "advancedPlayerGuide" true

/-- `Database._get_or_create_chat_settings`: return the stored row, or create
(and commit) one with the default filter. -/
def get_or_create_chat_settings (c : Int) (st : Store) : ChatRow × Store :=
  match lookupChat st.chatTable c with
  | some r => (r, st)
  | none =>
    let r : ChatRow := ⟨c, default_book_filter (rulebooks st)⟩
    (r, { st with chatTable := st.chatTable ++ [r] })

/-- `Database._get_book_filter`: with a truthy chat id, the keys of the
chat's filter that map to `True` (creating default settings on first
access); otherwise all known rulebooks.  Note python truthiness: `chat_id`
equal to `0` behaves like `None`. -/
def get_book_filter (chat : Option Int) (st : Store) : List String × Store :=
  match chat with
  | some c =>
    if c = 0 then (rulebooks st, st)
    else
      let (r, st1) := get_or_create_chat_settings c st
      ((r.book_filter.filter (·.2)).map (·.1), st1)
  | none => (rulebooks st, st)

/-- The line `new_book_filter[book_alias] = not new_book_filter[book_alias]`:
flip the value stored under one existing key. -/
def flipBook (bf : List (String × Bool)) (b : String) : List (String × Bool) :=
  bf.map (fun kv => if kv.1 = b then (kv.1, !kv.2) else kv)

/-- `Database.update_book_filter`: read-modify-write of one chat's filter.
Reading a missing `book_alias` key raises `KeyError` (`none` result); the
row creation performed by `get_or_create` stays committed in that case. -/
def update_book_filter (c : Int) (b : String) (st : Store) :
    Option (List (String × Bool)) × Store :=
  let (r, st1) := get_or_create_chat_settings c st
  if r.book_filter.any (fun kv => decide (kv.1 = b)) then
    let nf := flipBook r.book_filter b
    (some nf,
      { st1 with
          chatTable :=
            st1.chatTable.map (fun q => if q.chat_id = c then { q with book_filter := nf } else q) })
  else (none, st1)

/-! ## Read queries (`Database` iterators and `SpellSearch` pagination) -/

/-- Last-wins lookup, modelling a python dict built by comprehension from a
list (`{c.id: c for c in classes}`). -/
def lookupClassLast (cs : List ClassInfo) (i : Int) : Option ClassInfo :=
  cs.reverse.find? (fun c => decide (c.id = i))

/-- Last-wins lookup for schools (`{s.id: s for s in schools}`). -/
def lookupSchoolLast (ss : List SchoolInfo) (i : Int) : Option SchoolInfo :=
  ss.reverse.find? (fun s => decide (s.id = i))

/-- `ClassInfoSpellRestriction(**class_info.dict(), level=lvl)`. -/
def restrictionOf (ci : ClassInfo) (lvl : Int) : ClassInfoSpellRestriction :=
  { ci with level := lvl }

/-- `Database._convert_short_spell_info_rows` for one row: resolve the school
ids and the class-id-to-level JSON object against the class and school
tables; a missing id raises `KeyError` (`none`). -/
def convertRow (st : Store) (r : ShortSpellRow) : Option ShortSpellInfo :=
  match optList (r.schools.map (lookupSchoolLast st.schoolTable)) with
  | none => none
  | some schools =>
    match optList (r.classes.map
        (fun p => (lookupClassLast st.classTable p.1).map (fun ci => restrictionOf ci p.2))) with
    | none => none
    | some classes =>
      some { basicRowOf r with schools := schools, classes := classes }

/-- Byte-order comparison of two strings as character lists, the collation
`ORDER BY name ASC` sorts by (codepoint-lexicographic, which coincides with
the byte order of the stored UTF-8 text). -/
def nameLeb : List Char → List Char → Bool
  | [], _ => true
  | _ :: _, [] => false
  | a :: as_, b :: bs =>
    if a.toNat < b.toNat then true
    else if a.toNat = b.toNat then nameLeb as_ bs
    else false

/-- Name order used by the `ORDER BY name ASC` clauses. -/
def rowNameLE (a b : ShortSpellRow) : Prop := nameLeb a.name.data b.name.data = true

instance : DecidableRel rowNameLE :=
  fun a b => inferInstanceAs (Decidable (nameLeb a.name.data b.name.data = true))

theorem nameLeb_total : ∀ x y : List Char, nameLeb x y = true ∨ nameLeb y x = true := by
  intro x
  induction x with
  | nil => intro y; exact Or.inl rfl
  | cons a as_ ih =>
    intro y
    cases y with
    | nil => exact Or.inr rfl
    | cons b bs =>
      unfold nameLeb
      rcases Nat.lt_trichotomy a.toNat b.toNat with h | h | h
      · left
        rw [if_pos h]
      · rcases ih bs with h' | h'
        · left
          rw [if_neg (by omega), if_pos h]
          exact h'
        · right
          rw [if_neg (by omega), if_pos h.symm]
          exact h'
      · right
        rw [if_pos h]

theorem nameLeb_trans :
    ∀ x y z : List Char, nameLeb x y = true → nameLeb y z = true → nameLeb x z = true := by
  intro x
  induction x with
  | nil => intro y z _ _; rfl
  | cons a as_ ih =>
    intro y z hxy hyz
    cases y with
    | nil => cases hxy
    | cons b bs =>
      cases z with
      | nil => cases hyz
      | cons c cs =>
        unfold nameLeb at hxy hyz ⊢
        by_cases hab : a.toNat < b.toNat
        · by_cases hbc : b.toNat < c.toNat
          · rw [if_pos (by omega)]
          · rw [if_pos hab] at hxy
            by_cases hbc' : b.toNat = c.toNat
            · rw [if_pos (by omega)]
            · rw [if_neg hbc, if_neg hbc'] at hyz
              cases hyz
        · by_cases hab' : a.toNat = b.toNat
          · rw [if_neg hab, if_pos hab'] at hxy
            by_cases hbc : b.toNat < c.toNat
            · rw [if_pos (by omega)]
            · by_cases hbc' : b.toNat = c.toNat
              · rw [if_neg hbc, if_pos hbc'] at hyz
                rw [if_neg (by omega), if_pos (by omega)]
                exact ih bs cs hxy hyz
              · rw [if_neg hbc, if_neg hbc'] at hyz
                cases hyz
          · rw [if_neg hab, if_neg hab'] at hxy
            cases hxy

instance : IsTotal ShortSpellRow rowNameLE := ⟨fun a b => nameLeb_total _ _⟩

instance : IsTrans ShortSpellRow rowNameLE := ⟨fun _ _ _ h h' => nameLeb_trans _ _ _ h h'⟩

/-- JSON object access `classes[str(class_id)]` on a stored row. -/
def classesLookup (d : List (Int × Int)) (k : Int) : Option Int :=
  (d.find? (fun p => decide (p.1 = k))).map (·.2)

/-- `Database.iter_short_spell_info_by_name`: resolve the chat's included
books, select the included rows ordered by name, convert them, and keep the
ones whose lowercased name contains the query string (which is *not*
lowercased by the code). -/
def iter_short_spell_info_by_name (q : String) (chat : Option Int) (st : Store) :
    Option (List ShortSpellInfo) × Store :=
  let (books, st1) := get_book_filter chat st
  let rows := List.insertionSort rowNameLE
    (st.spellTable.filter (fun r => books.contains r.book_alias))
  ((optList (rows.map (convertRow st))).map
      (fun spells => spells.filter (fun s => strContains (strLower s.name) q)),
    st1)

/-- `Database.iter_short_spell_info_by_class_level`: rows whose class JSON
object maps `class_id` to exactly `spell_level`, restricted to the included
books, ordered by name, then converted. -/
def iter_short_spell_info_by_class_level (class_id spell_level : Int) (chat : Option Int)
    (st : Store) : Option (List ShortSpellInfo) × Store :=
  let (books, st1) := get_book_filter chat st
  let rows := List.insertionSort rowNameLE
    (st.spellTable.filter
      (fun r => decide (classesLookup r.classes class_id = some spell_level)
        && books.contains r.book_alias))
  (optList (rows.map (convertRow st)), st1)

/-- `SpellSearch.paginate_short_info_by_level`: fetch the full filtered set,
report `ceil(count / n_per_page)` pages and the python slice
`all_spells[n_per_page * page : n_per_page * (page + 1)]`. -/
def paginate_short_info_by_level (class_id level : Int) (chat : Option Int)
    (page n_per_page : Nat) (st : Store) : Option (Nat × List ShortSpellInfo) × Store :=
  let res := iter_short_spell_info_by_class_level class_id level chat st
  (res.1.map (fun all_spells =>
      ((all_spells.length + n_per_page - 1) / n_per_page,
        (all_spells.drop (n_per_page * page)).take n_per_page)),
    res.2)

/-! ## Source extraction (`SourceUpdater`, spellsource.py) -/

/-- One entry of a spell's `ClassSpell` JSON list in the scraped payload. -/
structure RawClassSpell where
  classId : Int
  levelVal : Int
deriving DecidableEq, Repr

/-- One spell entry of the scraped `spells` data block, after JSON parsing
and before key renaming. -/
structure RawSpell where
  rawAlias : String
  rawShortDescriptionComponents : String
  rawBookAbbreviation : String
  rawBookAlias : String
  rawShortDescription : String
  rawSchoolIds : List Int
  rawClassSpell : List RawClassSpell
  rawName : String
  rawIsRaceSpell : Bool
deriving DecidableEq, Repr

/-- The `KeyError` raised when a spell references a class or school id that
the same payload does not define. -/
inductive ResolutionErr where
  | missingId (i : Int)
deriving DecidableEq, Repr

/-- Scan for the closing char of the lazy pattern fragment; gives up at a
newline, which `.` does not match. -/
def afterCloseGt : List Char → Option (List Char)
  | [] => none
  | c :: t => if c = '>' then some t else if c = '\n' then none else afterCloseGt t

/-- Model of `re.sub("<a href.*?>|</a>", "", s)` applied to the scraped short
description: remove closing anchor tags and opening anchor tags up to the
next closing bracket on the same line. -/
def stripAnchorTags (l : List Char) : List Char :=
  match l with
  | [] => []
  | c :: t =>
    if ['<', '/', 'a', '>'].isPrefixOf (c :: t) then stripAnchorTags (t.drop 3)
    else if ['<', 'a', ' ', 'h', 'r', 'e', 'f'].isPrefixOf (c :: t) then
      match h : afterCloseGt (t.drop 6) with
      | some rest => stripAnchorTags rest
      | none => c :: stripAnchorTags t
    else c :: stripAnchorTags t
termination_by l.length
decreasing_by
  · simp only [List.length_cons]
    have := List.length_drop 3 t
    omega
  · have hlen : ∀ (l : List Char) (r : List Char), afterCloseGt l = some r → r.length < l.length := by
      intro l
      induction l with
      | nil => intro r hh; simp [afterCloseGt] at hh
      | cons c t ih =>
        intro r hh
        simp only [afterCloseGt] at hh
        split at hh
        · cases hh; simp
        · split at hh
          · cases hh
          · exact Nat.lt_trans (ih r hh) (by simp)
    have h1 := hlen _ _ h
    have := List.length_drop 6 t
    simp only [List.length_cons]
    omega
  · simp only [List.length_cons]
    omega
  · simp only [List.length_cons]
    omega

/-- Collect `Except` results, stopping at the first raised error; models a
python loop that may raise. -/
def mapE (f : α → Except ε β) : List α → Except ε (List β)
  | [] => Except.ok []
  | a :: t =>
    match f a with
    | Except.error e => Except.error e
    | Except.ok b =>
      match mapE f t with
      | Except.error e => Except.error e
      | Except.ok bs => Except.ok (b :: bs)

/-- Resolve one `ClassSpell` entry against the payload's classes
(`id2class[restriction["ClassId"]]`). -/
def resolveClassSpell (classes : List ClassInfo) (r : RawClassSpell) :
    Except ResolutionErr ClassInfoSpellRestriction :=
  match lookupClassLast classes r.classId with
  | some ci => Except.ok (restrictionOf ci r.levelVal)
  | none => Except.error (ResolutionErr.missingId r.classId)

/-- Resolve one school id against the payload's schools (`id2school[idx]`). -/
def resolveSchoolId (schools : List SchoolInfo) (i : Int) :
    Except ResolutionErr SchoolInfo :=
  match lookupSchoolLast schools i with
  | some s => Except.ok s
  | none => Except.error (ResolutionErr.missingId i)

/-- Build one `ShortSpellInfo` from a raw spell entry: resolve the class
restrictions, then the school ids, strip anchor tags from the short
description, and rename the keys into the pydantic model. -/
def spellOfRaw (classes : List ClassInfo) (schools : List SchoolInfo) (raw : RawSpell) :
    Except ResolutionErr ShortSpellInfo :=
  match mapE (resolveClassSpell classes) raw.rawClassSpell with
  | Except.error e => Except.error e
  | Except.ok crs =>
    match mapE (resolveSchoolId schools) raw.rawSchoolIds with
    | Except.error e => Except.error e
    | Except.ok scs =>
      Except.ok
        { alias' := raw.rawAlias
          short_description_components := raw.rawShortDescriptionComponents
          book_abbreviation := raw.rawBookAbbreviation
          book_alias := raw.rawBookAlias
          short_description := ⟨stripAnchorTags raw.rawShortDescription.data⟩
          name := raw.rawName
          is_race_spell := raw.rawIsRaceSpell
          schools := scs
          classes := crs }

/-- `SourceUpdater._extract_spells_from_js` after JSON parsing: the spell
entries are resolved in order and the first missing id raises. -/
def extract_spells_from_js (raws : List RawSpell) (classes : List ClassInfo)
    (schools : List SchoolInfo) : Except ResolutionErr (List ShortSpellInfo) :=
  mapE (spellOfRaw classes schools) raws

/-- Does some spell of the payload reference a class or school id that the
payload's classes/schools do not define? -/
def rawSpellDangles (classes : List ClassInfo) (schools : List SchoolInfo)
    (raw : RawSpell) : Bool :=
  raw.rawClassSpell.any (fun r => (lookupClassLast classes r.classId).isNone)
    || raw.rawSchoolIds.any (fun i => (lookupSchoolLast schools i).isNone)

/-- Payload-level danger predicate for the refresh ordering invariant. -/
def payloadDangles (raws : List RawSpell) (classes : List ClassInfo)
    (schools : List SchoolInfo) : Bool :=
  raws.any (rawSpellDangles classes schools)

/-- `SpellSearch.update_sources` with the network scrape already parsed:
extraction (`SourceUpdater.update_registry`) runs first and its errors
propagate before `Database.create_or_update_registry` is ever called. -/
def update_sources_model (raws : List RawSpell) (classes : List ClassInfo)
    (schools : List SchoolInfo) (st : Store) : Except ResolutionErr (Store × Bool) :=
  match extract_spells_from_js raws classes schools with
  | Except.error e => Except.error e
  | Except.ok spells => Except.ok (create_or_update_registry spells classes schools st)

/-- Did the call raise? -/
def isErr : Except ε α → Bool
  | Except.error _ => true
  | Except.ok _ => false

/-! ## Table image cache (`HctiApi`, html2image.py) -/

/-- Value object `SpellTable` (datatypes.py): raw html, the optional render
url and the local image path. -/
structure SpellTableV where
  html : String
  url : Option String
  path : String
deriving DecidableEq, Repr

/-- The external world seen by `HctiApi`: which files exist, what the render
service's JSON answer to a POST is (`none` models a body without a `"url"`
key, the one failure `create_image` catches), and whether downloading a
given url to a given path succeeds. -/
structure HctiWorld where
  files : List String
  renderResponse : String → Option String
  downloadOk : String → String → Bool

/-- `HctiApi.find_or_create`, instrumented with the number of render POSTs
and download GETs it performs.  On a cache hit nothing is called; otherwise
`create_image` POSTs (returning `none` when the answer has no url), and
`download_image` only writes the file when a GET for a real url succeeds —
its internal failures are caught and logged. -/
def find_or_create (html path : String) (w : HctiWorld) :
    SpellTableV × HctiWorld × Nat × Nat :=
  if path ∈ w.files then (⟨html, none, path⟩, w, 0, 0)
  else
    match w.renderResponse html with
    | none => (⟨html, none, path⟩, w, 1, 0)
    | some u =>
      if w.downloadOk u path then
        (⟨html, some u, path⟩, { w with files := path :: w.files }, 1, 1)
      else (⟨html, some u, path⟩, w, 1, 1)

/-- The table loop of `SpellSearch.full_info`: for the `idx`-th extracted
table fragment, call `find_or_create` with the path
`tables/<alias>/<idx>.png` and append the result — unconditionally — to the
list that is persisted and returned. -/
def fullInfoTables (alias' : String) (htmls : List String) (w : HctiWorld) :
    List SpellTableV × HctiWorld :=
  go 0 htmls w
where
  go (idx : Nat) : List String → HctiWorld → List SpellTableV × HctiWorld
    | [], w => ([], w)
    | h :: t, w =>
      let path := "tables/" ++ alias' ++ "/" ++ toString idx ++ ".png"
      let (tbl, w1, _, _) := find_or_create h path w
      let (rest, w2) := go (idx + 1) t w1
      (tbl :: rest, w2)

/-! ## Extended spell info (`Database.create_extended_spell_info`) -/

/-- Row of the `extended_spell_info` table.  `short_spell_info_id` is the
owning foreign key, declared `unique=True`; the attached `SpellTableRecord`
rows are modelled in place. -/
structure ExtRow where
  full_name : String
  school : String
  variables' : List (String × String)
  text : String
  short_spell_info_id : Option Int
  tables : List SpellTableV
deriving DecidableEq, Repr

/-- The slice of the database `create_extended_spell_info` touches: the spell
rows it resolves the alias against (surrogate id, alias) and the extended
rows. -/
structure ExtDb where
  spells : List (Int × String)
  ext : List ExtRow
deriving DecidableEq, Repr

/-- The scalar payload of `ExtendedSpellInfo.to_orm`. -/
structure ExtInfoV where
  full_name : String
  school : String
  variables' : List (String × String)
  text : String
deriving DecidableEq, Repr

/-- The spell id the alias resolves to (`.filter(alias == ...).first()`). -/
def lookupSpellId (db : ExtDb) (a : String) : Option Int :=
  (db.spells.find? (fun p => decide (p.2 = a))).map (·.1)

/-- The record `create_extended_spell_info` builds before committing. -/
def mkExtRow (info : ExtInfoV) (sid : Option Int) (tables : List SpellTableV) : ExtRow :=
  { full_name := info.full_name
    school := info.school
    variables' := info.variables'
    text := info.text
    short_spell_info_id := sid
    tables := tables }

/-- `Database.create_extended_spell_info`: resolve the alias to a spell row
(possibly `None`), build the extended record with its tables, and commit.
The commit raises `IntegrityError` when the unique `short_spell_info_id`
column already holds the same non-NULL id (SQLite exempts NULLs from
uniqueness). -/
def create_extended_spell_info (db : ExtDb) (a : String) (info : ExtInfoV)
    (tables : List SpellTableV) : Except Unit (ExtDb × ExtRow) :=
  let sid := lookupSpellId db a
  let row := mkExtRow info sid tables
  if sid.isSome && db.ext.any (fun r => decide (r.short_spell_info_id = sid)) then
    Except.error ()
  else Except.ok ({ db with ext := db.ext ++ [row] }, row)

/-! ## Last-writer-wins behaviour of keyed upserts

The bulk registry write processes items in order, each item either inserting
or overwriting the rows holding its key.  The lemmas below characterise the
fold of `upsertBy` and culminate in its idempotence. -/

section UpsertLemmas

variable {α : Type} {κ : Type} (k : α → κ) [DecidableEq κ]

/-- Some row of the table carries the key `K`. -/
def hasKey (t : List α) (K : κ) : Prop := ∃ r ∈ t, k r = K

/-- The last item of a payload carrying the key `K`, the one whose field
values win. -/
def lastWith (p : List α) (K : κ) : Option α :=
  p.reverse.find? (fun x => decide (k x = K))

/-- Thread one row through the overwrites a payload would apply to it. -/
def chainRep (p : List α) (r : α) : α :=
  p.foldl (fun r x => if k r = k x then x else r) r

/-- Every row holding the key `K` equals `v`. -/
def allRowsEq (t : List α) (K : κ) (v : α) : Prop := ∀ r ∈ t, k r = K → r = v

theorem hasKey_any {t : List α} {K : κ} :
    hasKey k t K ↔ t.any (fun r => decide (k r = K)) = true := by
  simp [hasKey, List.any_eq_true]

theorem upsertBy_hasKey_self (t : List α) (x : α) : hasKey k (upsertBy k t x) (k x) := by
  unfold upsertBy
  split
  · rename_i h
    simp only [List.any_eq_true, decide_eq_true_eq] at h
    obtain ⟨r, hr, hk⟩ := h
    exact ⟨x, by
      refine List.mem_map.2 ⟨r, hr, ?_⟩
      simp [hk], rfl⟩
  · exact ⟨x, by simp, rfl⟩

theorem upsertBy_hasKey_mono {t : List α} {K : κ} (x : α) (h : hasKey k t K) :
    hasKey k (upsertBy k t x) K := by
  obtain ⟨r, hr, hk⟩ := h
  unfold upsertBy
  split
  · refine ⟨if k r = k x then x else r, List.mem_map.2 ⟨r, hr, rfl⟩, ?_⟩
    split
    · rename_i he; rw [← he, hk]
    · exact hk
  · exact ⟨r, by simp [hr], hk⟩

theorem foldUpsert_hasKey_mono {K : κ} :
    ∀ (p : List α) (t : List α), hasKey k t K → hasKey k (p.foldl (upsertBy k) t) K := by
  intro p
  induction p with
  | nil => intro t h; exact h
  | cons x rest ih => intro t h; exact ih _ (upsertBy_hasKey_mono k x h)

theorem foldUpsert_hasKey :
    ∀ (p : List α) (t : List α) (x : α), x ∈ p → hasKey k (p.foldl (upsertBy k) t) (k x) := by
  intro p
  induction p with
  | nil => intro t x h; cases h
  | cons y rest ih =>
    intro t x h
    rcases List.mem_cons.1 h with rfl | hx
    · exact foldUpsert_hasKey_mono k rest _ (upsertBy_hasKey_self k t x)
    · exact ih _ x hx

theorem lastWith_cons (x : α) (p : List α) (K : κ) :
    lastWith k (x :: p) K =
      ((lastWith k p K).rec (if k x = K then some x else none) (fun v => some v)) := by
  unfold lastWith
  rw [List.reverse_cons, List.find?_append]
  cases hp : List.find? (fun x => decide (k x = K)) p.reverse with
  | some v => simp
  | none => by_cases h : k x = K <;> simp [List.find?, h]

theorem lastWith_eq_none (p : List α) (K : κ) :
    lastWith k p K = none ↔ ∀ x ∈ p, k x ≠ K := by
  unfold lastWith
  rw [List.find?_eq_none]
  simp

theorem allRowsEq_upsertBy_ne {t : List α} {K : κ} {v : α} (x : α) (hne : k x ≠ K)
    (h : allRowsEq k t K v) : allRowsEq k (upsertBy k t x) K v := by
  intro r hr hk
  unfold upsertBy at hr
  split at hr
  · obtain ⟨r0, hr0, hrep⟩ := List.mem_map.1 hr
    by_cases he : k r0 = k x
    · rw [if_pos he] at hrep
      exact absurd (hrep ▸ hk) hne
    · rw [if_neg he] at hrep
      subst hrep
      exact h r0 hr0 hk
  · rcases List.mem_append.1 hr with hr' | hr'
    · exact h r hr' hk
    · simp only [List.mem_singleton] at hr'
      exact absurd (hr' ▸ hk) hne

theorem allRowsEq_foldUpsert_ne {K : κ} {v : α} :
    ∀ (p : List α) (t : List α), (∀ x ∈ p, k x ≠ K) → allRowsEq k t K v →
      allRowsEq k (p.foldl (upsertBy k) t) K v := by
  intro p
  induction p with
  | nil => intro t _ h; exact h
  | cons x rest ih =>
    intro t hp h
    exact ih _ (fun y hy => hp y (List.mem_cons_of_mem _ hy))
      (allRowsEq_upsertBy_ne k x (hp x (List.mem_cons_self _ _)) h)

theorem allRowsEq_upsertBy_self (t : List α) (x : α) :
    allRowsEq k (upsertBy k t x) (k x) x := by
  intro r hr hk
  unfold upsertBy at hr
  split at hr
  · obtain ⟨r0, hr0, hrep⟩ := List.mem_map.1 hr
    by_cases he : k r0 = k x
    · rw [if_pos he] at hrep; exact hrep.symm
    · rw [if_neg he] at hrep; exact absurd (hrep ▸ hk) he
  · rename_i hany
    rcases List.mem_append.1 hr with hr' | hr'
    · exfalso
      have : ¬ t.any (fun r => decide (k r = k x)) = true := hany
      simp only [List.any_eq_true, decide_eq_true_eq, not_exists, not_and] at this
      exact this r hr' hk
    · simpa using hr'

theorem lastWith_foldUpsert {K : κ} {v : α} :
    ∀ (p : List α) (t : List α), lastWith k p K = some v →
      allRowsEq k (p.foldl (upsertBy k) t) K v := by
  intro p
  induction p with
  | nil => intro t h; simp [lastWith] at h
  | cons x rest ih =>
    intro t h
    rw [lastWith_cons] at h
    cases hr : lastWith k rest K with
    | some v' =>
      rw [hr] at h
      simp only at h
      cases h
      exact ih _ hr
    | none =>
      rw [hr] at h
      simp only at h
      split at h
      · rename_i he
        cases h
        subst he
        exact allRowsEq_foldUpsert_ne k rest _ ((lastWith_eq_none k rest _).1 hr)
          (allRowsEq_upsertBy_self k t v)
      · cases h

theorem chainRep_key : ∀ (p : List α) (r : α), k (chainRep k p r) = k r := by
  intro p
  induction p with
  | nil => intro r; rfl
  | cons x rest ih =>
    intro r
    show k (chainRep k rest (if k r = k x then x else r)) = k r
    rw [ih]
    split
    · rename_i he; exact he.symm
    · rfl

theorem chainRep_eq_of_none :
    ∀ (p : List α) (r : α), lastWith k p (k r) = none → chainRep k p r = r := by
  intro p
  induction p with
  | nil => intro r _; rfl
  | cons x rest ih =>
    intro r h
    rw [lastWith_cons] at h
    cases hr : lastWith k rest (k r) with
    | some v' => rw [hr] at h; simp at h
    | none =>
      rw [hr] at h
      simp only at h
      have hxk : k x ≠ k r := by
        intro he
        rw [if_pos he] at h
        cases h
      show chainRep k rest (if k r = k x then x else r) = r
      rw [if_neg (fun he => hxk he.symm)]
      exact ih r hr

theorem chainRep_eq_of_some {v : α} :
    ∀ (p : List α) (r : α), lastWith k p (k r) = some v → chainRep k p r = v := by
  intro p
  induction p with
  | nil => intro r h; simp [lastWith] at h
  | cons x rest ih =>
    intro r h
    rw [lastWith_cons] at h
    by_cases he : k r = k x
    · show chainRep k rest (if k r = k x then x else r) = v
      rw [if_pos he]
      cases hr : lastWith k rest (k r) with
      | some v' =>
        rw [hr] at h
        simp only at h
        cases h
        exact ih x (by rw [← he]; exact hr)
      | none =>
        rw [hr] at h
        simp only at h
        rw [if_pos he.symm] at h
        have hxv : x = v := Option.some.inj h
        subst hxv
        exact chainRep_eq_of_none k rest x (by rw [← he]; exact hr)
    · show chainRep k rest (if k r = k x then x else r) = v
      rw [if_neg he]
      cases hr : lastWith k rest (k r) with
      | some v' =>
        rw [hr] at h
        simp only at h
        cases h
        exact ih r hr
      | none =>
        rw [hr] at h
        simp only at h
        rw [if_neg (fun hxe => he hxe.symm)] at h
        cases h

theorem upsertBy_of_hasKey {t : List α} {x : α} (h : hasKey k t (k x)) :
    upsertBy k t x = t.map (fun r => if k r = k x then x else r) := by
  unfold upsertBy
  rw [if_pos ((hasKey_any k).1 h)]

theorem hasKey_map_rep {t : List α} {K : κ} (x : α) (h : hasKey k t K) :
    hasKey k (t.map (fun r => if k r = k x then x else r)) K := by
  obtain ⟨r, hr, hk⟩ := h
  refine ⟨if k r = k x then x else r, List.mem_map.2 ⟨r, hr, rfl⟩, ?_⟩
  split
  · rename_i he; rw [← he, hk]
  · exact hk

theorem foldUpsert_eq_map_chainRep :
    ∀ (p : List α) (t : List α), (∀ x ∈ p, hasKey k t (k x)) →
      p.foldl (upsertBy k) t = t.map (chainRep k p) := by
  intro p
  induction p with
  | nil =>
    intro t _
    simp only [List.foldl_nil]
    have : ∀ r ∈ t, chainRep k [] r = r := fun r _ => rfl
    rw [List.map_congr_left this]
    simp
  | cons x rest ih =>
    intro t hp
    simp only [List.foldl_cons]
    rw [upsertBy_of_hasKey k (hp x (List.mem_cons_self _ _))]
    rw [ih _ (fun y hy => hasKey_map_rep k x (hp y (List.mem_cons_of_mem _ hy)))]
    rw [List.map_map]
    rfl

theorem foldUpsert_idem (p : List α) (t : List α) :
    p.foldl (upsertBy k) (p.foldl (upsertBy k) t) = p.foldl (upsertBy k) t := by
  have hkeys : ∀ x ∈ p, hasKey k (p.foldl (upsertBy k) t) (k x) :=
    fun x hx => foldUpsert_hasKey k p t x hx
  rw [foldUpsert_eq_map_chainRep k p _ hkeys]
  have : ∀ r ∈ p.foldl (upsertBy k) t, chainRep k p r = r := by
    intro r hr
    cases h : lastWith k p (k r) with
    | none => exact chainRep_eq_of_none k p r h
    | some v =>
      rw [chainRep_eq_of_some k p r h]
      exact (lastWith_foldUpsert k p t h r hr rfl).symm
  rw [List.map_congr_left this]
  simp

theorem mem_upsertBy {t : List α} {x r : α} (h : r ∈ upsertBy k t x) : r ∈ t ∨ r = x := by
  unfold upsertBy at h
  split at h
  · obtain ⟨r0, hr0, hrep⟩ := List.mem_map.1 h
    by_cases he : k r0 = k x
    · rw [if_pos he] at hrep; exact Or.inr hrep.symm
    · rw [if_neg he] at hrep; exact Or.inl (hrep ▸ hr0)
  · rcases List.mem_append.1 h with h' | h'
    · exact Or.inl h'
    · simp only [List.mem_singleton] at h'
      exact Or.inr h'

theorem mem_foldUpsert :
    ∀ (p : List α) (t : List α) (r : α), r ∈ p.foldl (upsertBy k) t → r ∈ t ∨ r ∈ p := by
  intro p
  induction p with
  | nil => intro t r h; exact Or.inl h
  | cons x rest ih =>
    intro t r h
    rcases ih _ r h with h' | h'
    · rcases mem_upsertBy k h' with h'' | h''
      · exact Or.inl h''
      · exact Or.inr (h'' ▸ List.mem_cons_self _ _)
    · exact Or.inr (List.mem_cons_of_mem _ h')

end UpsertLemmas

/-! ## The class upsert as a keyed upsert

Because the `class` table also has unique `alias` and `name` columns, its
upsert only behaves like a pure keyed upsert when alias/name collisions can
only happen between rows carrying the same id.  `classCompat` captures that
side condition for a pool of rows (the payload plus the stored table). -/

/-- In this pool of class rows, a collision on `alias` or `name` implies a
collision on `id`, so the only effective unique column is the key. -/
def classCompat (pool : List ClassInfo) : Prop :=
  ∀ x ∈ pool, ∀ y ∈ pool, x.alias' = y.alias' ∨ x.name = y.name → x.id = y.id

theorem classCompat_mono {l l' : List ClassInfo} (hsub : ∀ x ∈ l', x ∈ l)
    (h : classCompat l) : classCompat l' :=
  fun x hx y hy => h x (hsub x hx) y (hsub y hy)

theorem classRowsConflict_false_iff {a b : ClassInfo} :
    classRowsConflict a b = false ↔ a.id ≠ b.id ∧ a.alias' ≠ b.alias' ∧ a.name ≠ b.name := by
  simp [classRowsConflict, and_assoc]

theorem classTableOk_iff {t : List ClassInfo} :
    classTableOk t = true ↔ t.Pairwise (fun a b => classRowsConflict a b = false) := by
  induction t with
  | nil => simp [classTableOk]
  | cons c t ih =>
    simp only [classTableOk, Bool.and_eq_true, Bool.not_eq_true', List.pairwise_cons, ← ih]
    constructor
    · rintro ⟨h1, h2⟩
      refine ⟨fun r hr => ?_, h2⟩
      by_contra hne
      have : t.any (classRowsConflict c) = true :=
        List.any_eq_true.2 ⟨r, hr, by simpa [Bool.not_eq_false] using hne⟩
      rw [h1] at this
      cases this
    · rintro ⟨h1, h2⟩
      refine ⟨?_, h2⟩
      by_contra hne
      rw [Bool.not_eq_false, List.any_eq_true] at hne
      obtain ⟨r, hr, hcr⟩ := hne
      rw [h1 r hr] at hcr
      cases hcr

theorem any_congr_mem {l : List α} {p q : α → Bool} (h : ∀ x ∈ l, p x = q x) :
    l.any p = l.any q := by
  induction l with
  | nil => rfl
  | cons a t ih =>
    simp only [List.any_cons, h a (List.mem_cons_self _ _),
      ih (fun x hx => h x (List.mem_cons_of_mem _ hx))]

theorem classConflict_eq_keyConflict {t : List ClassInfo} {c : ClassInfo}
    (hc : ∀ r ∈ t, r.alias' = c.alias' ∨ r.name = c.name → r.id = c.id) :
    ∀ r ∈ t, classRowsConflict c r = decide (ClassInfo.id r = ClassInfo.id c) := by
  intro r hr
  by_cases hid : r.id = c.id
  · simp [classRowsConflict, hid]
  · have h2 : ¬ c.alias' = r.alias' := fun h => hid (hc r hr (Or.inl h.symm))
    have h3 : ¬ c.name = r.name := fun h => hid (hc r hr (Or.inr h.symm))
    have h1 : ¬ c.id = r.id := fun h => hid h.symm
    simp [classRowsConflict, h1, h2, h3, hid]

theorem classUpsert_ok {t : List ClassInfo} {c : ClassInfo}
    (hok : classTableOk t = true)
    (hc : ∀ r ∈ t, r.alias' = c.alias' ∨ r.name = c.name → r.id = c.id) :
    classUpsert t c = Except.ok (upsertBy ClassInfo.id t c) ∧
      classTableOk (upsertBy ClassInfo.id t c) = true := by
  have hcond : t.any (classRowsConflict c)
      = t.any (fun r => decide (ClassInfo.id r = ClassInfo.id c)) :=
    any_congr_mem (classConflict_eq_keyConflict hc)
  unfold classUpsert upsertBy
  cases hany : t.any (fun r => decide (ClassInfo.id r = ClassInfo.id c)) with
  | true =>
    rw [hcond, hany]
    simp only [if_true]
    have hok2 : classTableOk (t.map (fun r => if r.id = c.id then c else r)) = true := by
      rw [classTableOk_iff]
      rw [List.pairwise_map]
      refine (classTableOk_iff.1 hok).imp_of_mem ?_
      intro a b ha hb hab
      rw [classRowsConflict_false_iff] at hab
      by_cases hba : b.id = c.id
      · by_cases haa : a.id = c.id
        · exact absurd (haa.trans hba.symm) hab.1
        · rw [if_pos hba, if_neg haa]
          rw [classRowsConflict_false_iff]
          refine ⟨fun h => haa h, fun h => haa (hc a ha (Or.inl h)), fun h => haa (hc a ha (Or.inr h))⟩
      · by_cases haa : a.id = c.id
        · rw [if_pos haa, if_neg hba]
          rw [classRowsConflict_false_iff]
          exact ⟨fun h => hba h.symm, fun h => hba (hc b hb (Or.inl h.symm)),
            fun h => hba (hc b hb (Or.inr h.symm))⟩
        · rw [if_neg haa, if_neg hba]
          exact classRowsConflict_false_iff.2 hab
    rw [if_pos hok2]
    exact ⟨rfl, hok2⟩
  | false =>
    rw [hcond, hany]
    simp only [if_false]
    have hnone : ∀ r ∈ t, r.id ≠ c.id := by
      intro r hr
      by_contra he
      have : t.any (fun r => decide (ClassInfo.id r = ClassInfo.id c)) = true :=
        List.any_eq_true.2 ⟨r, hr, by simpa using he⟩
      rw [hany] at this
      cases this
    have hok2 : classTableOk (t ++ [c]) = true := by
      rw [classTableOk_iff, List.pairwise_append]
      refine ⟨classTableOk_iff.1 hok, List.pairwise_singleton _ _, ?_⟩
      intro a ha b hb
      simp only [List.mem_singleton] at hb
      subst hb
      rw [classRowsConflict_false_iff]
      exact ⟨hnone a ha, fun h => hnone a ha (hc a ha (Or.inl h)),
        fun h => hnone a ha (hc a ha (Or.inr h))⟩
    exact ⟨rfl, hok2⟩

theorem runClassUpserts_ok :
    ∀ (cs t : List ClassInfo), classTableOk t = true → classCompat (cs ++ t) →
      runClassUpserts cs t = (cs.foldl (upsertBy ClassInfo.id) t, true) ∧
        classTableOk (cs.foldl (upsertBy ClassInfo.id) t) = true := by
  intro cs
  induction cs with
  | nil => intro t h _; exact ⟨rfl, h⟩
  | cons c rest ih =>
    intro t hok hcompat
    have hc : ∀ r ∈ t, r.alias' = c.alias' ∨ r.name = c.name → r.id = c.id := by
      intro r hr hcl
      exact hcompat r (by simp [hr]) c (by simp) hcl
    obtain ⟨hstep, hok2⟩ := classUpsert_ok hok hc
    have hsub : ∀ x ∈ rest ++ upsertBy ClassInfo.id t c, x ∈ (c :: rest) ++ t := by
      intro x hx
      rcases List.mem_append.1 hx with hx' | hx'
      · simp [hx']
      · rcases mem_upsertBy _ hx' with h' | h'
        · simp [h']
        · simp [h']
    obtain ⟨hrun, hok3⟩ := ih (upsertBy ClassInfo.id t c) hok2 (classCompat_mono hsub hcompat)
    refine ⟨?_, by simpa using hok3⟩
    simp only [runClassUpserts, hstep, List.foldl_cons]
    exact hrun

theorem schoolUpsert_eq : schoolUpsert = upsertBy SchoolInfo.id := rfl

theorem spellUpsert_eq : spellUpsert = upsertBy ShortSpellRow.alias' := rfl

theorem create_or_update_registry_of_run {classes : List ClassInfo} {st : Store}
    {F : List ClassInfo} (spells : List ShortSpellInfo) (schools : List SchoolInfo)
    (h : runClassUpserts classes st.classTable = (F, true)) :
    create_or_update_registry spells classes schools st =
      ({ st with
          classTable := F
          schoolTable := schools.foldl schoolUpsert st.schoolTable
          spellTable := (spells.map spellToOrm).foldl spellUpsert st.spellTable }, true) := by
  unfold create_or_update_registry
  rw [h]

/-! ## Concrete fixtures used by the claim theorems -/

/-- Class row with only id, alias and name populated. -/
def mkClass (i : Int) (a n : String) : ClassInfo :=
  { id := i, alias' := a, book_abbreviation := "", book_alias := "",
    short_description := "", name := n, is_own_spell_list := none,
    max_spell_lvl := none, parent_class_ids := [] }

/-- The empty store. -/
def emptyStore : Store := ⟨[], [], [], []⟩

/-- Spell-row fixture with only alias, name and book populated. -/
def mkSpellRow (a n b : String) : ShortSpellRow := ⟨a, "", "", b, "", [], [], n, false⟩

/-- Starting store for the claim C1 counterexample: one committed class row. -/
def c1cexStore : Store := ⟨[mkClass 2 "q0" "M"], [], [], []⟩

/-- Class payload for the claim C1 counterexample: the first item's insert
fails on the unique `name` column against the stored row of id `2`, and its
fallback `UPDATE ... WHERE id = 1` matches nothing; after the first call has
renamed row `2`, the second call inserts the first item instead. -/
def c1cexClasses : List ClassInfo := [mkClass 1 "p" "M", mkClass 2 "q" "M2"]

/-- A resolved spell fixture. -/
def wSpell : ShortSpellInfo :=
  { alias' := "fireball", short_description_components := "", book_abbreviation := "CRB",
    book_alias := "coreRulebook", short_description := "boom", name := "Fireball",
    is_race_spell := false, schools := [⟨1, "evocation", 1, "battle"⟩],
    classes := [restrictionOf (mkClass 1 "wizard" "Wizard") 3] }

/-- A store holding exactly one spell row. -/
def oneSpellStore : Store := ⟨[], [], [spellToOrm wSpell], []⟩

/-! ## Claim C1 -/

/-- Claim C1, counterexample.  With the store `c1cexStore` and the class
payload `c1cexClasses`, the first registry call completes, but a second call
with the identical payload commits a different store (it inserts an extra
class row), so the upsert is not idempotent for every payload and starting
state. -/
theorem claim1_counterexample :
    (create_or_update_registry [] c1cexClasses [] c1cexStore).2 = true ∧
    (create_or_update_registry [] c1cexClasses []
        (create_or_update_registry [] c1cexClasses [] c1cexStore).1).1
      ≠ (create_or_update_registry [] c1cexClasses [] c1cexStore).1 := by
  decide

/-- Claim C1, amended.  Calling `create_or_update_registry` twice with
identical spell, class and school lists leaves the store in the state of the
first call (and both calls complete), provided the class table invariant
holds and alias/name collisions among the payload classes and stored class
rows only occur at equal ids — without that proviso the counterexample
applies.  Spell and school upserts need no proviso. -/
theorem claim1_theorem (spells : List ShortSpellInfo) (classes : List ClassInfo)
    (schools : List SchoolInfo) (st : Store)
    (hok : classTableOk st.classTable = true)
    (hcompat : classCompat (classes ++ st.classTable)) :
    (create_or_update_registry spells classes schools st).2 = true ∧
    create_or_update_registry spells classes schools
        (create_or_update_registry spells classes schools st).1
      = ((create_or_update_registry spells classes schools st).1, true) := by
  obtain ⟨hrun, hok1⟩ := runClassUpserts_ok classes st.classTable hok hcompat
  have h1 := create_or_update_registry_of_run spells schools hrun
  refine ⟨by rw [h1], ?_⟩
  rw [h1]
  have hsub : ∀ x ∈ classes ++ classes.foldl (upsertBy ClassInfo.id) st.classTable,
      x ∈ classes ++ st.classTable := by
    intro x hx
    rcases List.mem_append.1 hx with hx' | hx'
    · exact List.mem_append.2 (Or.inl hx')
    · rcases mem_foldUpsert ClassInfo.id classes st.classTable x hx' with h' | h'
      · exact List.mem_append.2 (Or.inr h')
      · exact List.mem_append.2 (Or.inl h')
  obtain ⟨hrun2, _⟩ := runClassUpserts_ok classes
    (classes.foldl (upsertBy ClassInfo.id) st.classTable) hok1
    (classCompat_mono hsub hcompat)
  have h2 := @create_or_update_registry_of_run classes
    { st with
        classTable := classes.foldl (upsertBy ClassInfo.id) st.classTable
        schoolTable := schools.foldl schoolUpsert st.schoolTable
        spellTable := (spells.map spellToOrm).foldl spellUpsert st.spellTable }
    (classes.foldl (upsertBy ClassInfo.id) (classes.foldl (upsertBy ClassInfo.id) st.classTable))
    spells schools hrun2
  rw [h2]
  rw [foldUpsert_idem ClassInfo.id classes st.classTable]
  rw [schoolUpsert_eq, spellUpsert_eq]
  rw [foldUpsert_idem SchoolInfo.id schools st.schoolTable]
  rw [foldUpsert_idem ShortSpellRow.alias' (spells.map spellToOrm) st.spellTable]

/-- Claim C1, witness for the amended theorem at a concrete payload and the
empty store. -/
theorem claim1_witness :
    (create_or_update_registry [wSpell] [mkClass 1 "wizard" "Wizard"]
        [⟨1, "evocation", 1, "battle"⟩] emptyStore).2 = true ∧
    create_or_update_registry [wSpell] [mkClass 1 "wizard" "Wizard"]
        [⟨1, "evocation", 1, "battle"⟩]
        (create_or_update_registry [wSpell] [mkClass 1 "wizard" "Wizard"]
          [⟨1, "evocation", 1, "battle"⟩] emptyStore).1
      = ((create_or_update_registry [wSpell] [mkClass 1 "wizard" "Wizard"]
          [⟨1, "evocation", 1, "battle"⟩] emptyStore).1, true) :=
  claim1_theorem _ _ _ _ (by decide) (by unfold classCompat; decide)

/-! ## Claim C10 -/

/-- Claim C10.  `has_spell_list` reports readiness exactly when the stored
spell count strictly exceeds `min_n`; a store holding exactly `min_n` spells
is reported as not ready. -/
theorem claim10_theorem (st : Store) (n : Nat) :
    (has_spell_list st n = true ↔ st.spellTable.length > n) ∧
    (st.spellTable.length = n → has_spell_list st n = false) := by
  constructor
  · simp [has_spell_list]
  · intro h
    simp [has_spell_list, h]

/-- Claim C10, witness: one stored spell and a threshold of one. -/
theorem claim10_witness : has_spell_list oneSpellStore 1 = false :=
  (claim10_theorem oneSpellStore 1).2 (by decide)

/-! ## Claim C2 -/

theorem mapE_isErr_of_mem {f : α → Except ε β} :
    ∀ {l : List α} {a : α}, a ∈ l → isErr (f a) = true → isErr (mapE f l) = true := by
  intro l
  induction l with
  | nil => intro a ha; cases ha
  | cons x t ih =>
    intro a ha herr
    unfold mapE
    cases hx : f x with
    | error e => rfl
    | ok b =>
      rcases List.mem_cons.1 ha with rfl | hat
      · rw [hx] at herr
        cases herr
      · have := ih hat herr
        cases hm : mapE f t with
        | error e => rfl
        | ok bs =>
          rw [hm] at this
          cases this

theorem mapE_isErr_false_of_all {f : α → Except ε β} :
    ∀ {l : List α}, (∀ a ∈ l, isErr (f a) = false) → isErr (mapE f l) = false := by
  intro l
  induction l with
  | nil => intro _; rfl
  | cons x t ih =>
    intro hall
    unfold mapE
    cases hx : f x with
    | error e =>
      have := hall x (List.mem_cons_self _ _)
      rw [hx] at this
      cases this
    | ok b =>
      have := ih (fun a ha => hall a (List.mem_cons_of_mem _ ha))
      cases hm : mapE f t with
      | error e => rw [hm] at this; cases this
      | ok bs => rfl

theorem resolveClassSpell_isErr (classes : List ClassInfo) (r : RawClassSpell) :
    isErr (resolveClassSpell classes r) = (lookupClassLast classes r.classId).isNone := by
  unfold resolveClassSpell
  cases lookupClassLast classes r.classId <;> rfl

theorem resolveSchoolId_isErr (schools : List SchoolInfo) (i : Int) :
    isErr (resolveSchoolId schools i) = (lookupSchoolLast schools i).isNone := by
  unfold resolveSchoolId
  cases lookupSchoolLast schools i <;> rfl

theorem spellOfRaw_isErr_of_dangles {classes : List ClassInfo} {schools : List SchoolInfo}
    {raw : RawSpell} (h : rawSpellDangles classes schools raw = true) :
    isErr (spellOfRaw classes schools raw) = true := by
  unfold rawSpellDangles at h
  rw [Bool.or_eq_true] at h
  unfold spellOfRaw
  rcases h with h | h
  · rw [List.any_eq_true] at h
    obtain ⟨r, hr, hnone⟩ := h
    have herr : isErr (resolveClassSpell classes r) = true := by
      rw [resolveClassSpell_isErr]
      simpa using hnone
    have := mapE_isErr_of_mem hr herr
    cases hm : mapE (resolveClassSpell classes) raw.rawClassSpell with
    | error e => rfl
    | ok crs => rw [hm] at this; cases this
  · cases hm : mapE (resolveClassSpell classes) raw.rawClassSpell with
    | error e => rfl
    | ok crs =>
      rw [List.any_eq_true] at h
      obtain ⟨i, hi, hnone⟩ := h
      have herr : isErr (resolveSchoolId schools i) = true := by
        rw [resolveSchoolId_isErr]
        simpa using hnone
      have := mapE_isErr_of_mem hi herr
      cases hs : mapE (resolveSchoolId schools) raw.rawSchoolIds with
      | error e => rfl
      | ok scs => rw [hs] at this; cases this

/-- Claim C2, amended.  A registry payload in which some spell references a
class or school id absent from the payload's classes/schools makes the
refresh pipeline raise the `KeyError` of `_extract_spells_from_js` — before
`create_or_update_registry` is ever called — so nothing at all is committed
for the refresh; the resolution check lives in the extraction step, not in
the upsert. -/
theorem claim2_theorem (raws : List RawSpell) (classes : List ClassInfo)
    (schools : List SchoolInfo) (st : Store)
    (h : payloadDangles raws classes schools = true) :
    isErr (update_sources_model raws classes schools st) = true := by
  unfold payloadDangles at h
  rw [List.any_eq_true] at h
  obtain ⟨raw, hraw, hd⟩ := h
  have herr := mapE_isErr_of_mem hraw (spellOfRaw_isErr_of_dangles hd)
  unfold update_sources_model extract_spells_from_js
  unfold extract_spells_from_js at herr
  cases hm : mapE (spellOfRaw classes schools) raws with
  | error e => rfl
  | ok spells => rw [hm] at herr; cases herr

/-- A spell value object whose class association references id 99, which no
class list below defines. -/
def c2Spell : ShortSpellInfo :=
  { wSpell with classes := [restrictionOf (mkClass 99 "oracle" "Oracle") 3], schools := [] }

/-- Claim C2, counterexample.  Handing the registry upsert itself a spell
whose class mapping references the undefined id 99 (with empty class and
school lists in the same call) raises nothing: the call completes and commits
the spell row with its dangling reference, while the class table stays
empty.  The upsert performs no resolution check. -/
theorem claim2_counterexample :
    (create_or_update_registry [c2Spell] [] [] emptyStore).2 = true ∧
    (create_or_update_registry [c2Spell] [] [] emptyStore).1.spellTable
      = [spellToOrm c2Spell] ∧
    (spellToOrm c2Spell).classes = [(99, 3)] ∧
    (create_or_update_registry [c2Spell] [] [] emptyStore).1.classTable = [] := by
  decide

/-- A raw payload spell referencing class id 99. -/
def c2Raw : RawSpell :=
  { rawAlias := "fireball", rawShortDescriptionComponents := "", rawBookAbbreviation := "",
    rawBookAlias := "coreRulebook", rawShortDescription := "boom", rawSchoolIds := [],
    rawClassSpell := [⟨99, 3⟩], rawName := "Fireball", rawIsRaceSpell := false }

/-- Claim C2, witness for the amended theorem: the pipeline raises on a
payload whose only spell references the undefined class id 99. -/
theorem claim2_witness : isErr (update_sources_model [c2Raw] [] [] emptyStore) = true :=
  claim2_theorem [c2Raw] [] [] emptyStore (by decide)

/-! ## Claim C3 -/

theorem optList_map_eq {α β γ : Type} {f : α → Option β} {g : β → γ} {h : α → γ}
    (hgh : ∀ a b, f a = some b → g b = h a) :
    ∀ {l : List α} {out : List β}, optList (l.map f) = some out → out.map g = l.map h := by
  intro l
  induction l with
  | nil =>
    intro out hout
    cases hout
    rfl
  | cons a t ih =>
    intro out hout
    rw [List.map_cons] at hout
    cases hfa : f a with
    | none =>
      rw [hfa] at hout
      cases hout
    | some b =>
      rw [hfa] at hout
      rw [show optList (some b :: List.map f t)
            = (match optList (List.map f t) with
                | none => none
                | some as_ => some (b :: as_)) from rfl] at hout
      cases hrest : optList (t.map f) with
      | none => rw [hrest] at hout; cases hout
      | some bs =>
        rw [hrest] at hout
        cases hout
        rw [List.map_cons, List.map_cons, hgh a b hfa, ih hrest]

theorem convertRow_basic {st : Store} {r : ShortSpellRow} {s : ShortSpellInfo}
    (h : convertRow st r = some s) : s.toBasicShortSpellInfo = basicRowOf r := by
  unfold convertRow at h
  cases h1 : optList (r.schools.map (lookupSchoolLast st.schoolTable)) with
  | none => rw [h1] at h; cases h
  | some schools =>
    rw [h1] at h
    cases h2 : optList (r.classes.map
        (fun p => (lookupClassLast st.classTable p.1).map (fun ci => restrictionOf ci p.2))) with
    | none => rw [h2] at h; cases h
    | some classes =>
      rw [h2] at h
      cases h
      rfl

theorem filter_map_comm {α β : Type} (f : α → β) (p : β → Bool) :
    ∀ l : List α, (l.map f).filter p = (l.filter (fun a => p (f a))).map f := by
  intro l
  induction l with
  | nil => rfl
  | cons a t ih =>
    simp only [List.map_cons, List.filter_cons]
    cases hp : p (f a) with
    | true => simp [hp, ih]
    | false => simp [hp, ih]

theorem strContains_empty (s : String) : strContains s "" = true := by
  unfold strContains
  cases hd : s.data <;> simp [listContains, List.isPrefixOf]

theorem strLower_empty : strLower "" = "" := rfl

theorem get_book_filter_some {st : Store} {c : Int} {rc : ChatRow}
    (hc : ¬ c = 0) (hchat : lookupChat st.chatTable c = some rc) :
    get_book_filter (some c) st = ((rc.book_filter.filter (·.2)).map (·.1), st) := by
  unfold get_book_filter get_or_create_chat_settings
  dsimp only
  rw [if_neg hc, hchat]

/-- Claim C3, amended.  For a store whose rows all resolve (so that the query
returns at all — `hout`) and an already-lowercased query `q`, the name search
returns exactly the stored spells whose book is enabled in the chat's filter
and whose lowercased name contains `q` (which, for lowercase `q`, is
case-insensitive containment), in ascending name order; the empty query
returns all included-book spells.  A query with uppercase letters can miss
matching spells, because the code lowercases only the stored name. -/
theorem claim3_theorem (st : Store) (q : String) (c : Int) (rc : ChatRow)
    (out : List ShortSpellInfo)
    (hq : strLower q = q)
    (hc : c ≠ 0)
    (hchat : lookupChat st.chatTable c = some rc)
    (hout : (iter_short_spell_info_by_name q (some c) st).1 = some out) :
    (out.map (fun s => s.toBasicShortSpellInfo)).Perm
      ((st.spellTable.filter (fun r =>
          ((rc.book_filter.filter (·.2)).map (·.1)).contains r.book_alias
            && ciContains r.name q)).map basicRowOf) ∧
    out.Pairwise (fun a b => nameLeb a.name.data b.name.data = true) ∧
    (q = "" → (out.map (fun s => s.toBasicShortSpellInfo)).Perm
      ((st.spellTable.filter (fun r =>
          ((rc.book_filter.filter (·.2)).map (·.1)).contains r.book_alias)).map basicRowOf)) := by
  have hiter : (iter_short_spell_info_by_name q (some c) st).1
      = (optList ((List.insertionSort rowNameLE
            (st.spellTable.filter (fun r =>
              (((rc.book_filter.filter (·.2)).map (·.1))).contains r.book_alias))).map
          (convertRow st))).map
        (fun spells => spells.filter (fun s => strContains (strLower s.name) q)) := by
    unfold iter_short_spell_info_by_name
    rw [get_book_filter_some hc hchat]
  rw [hiter, Option.map_eq_some'] at hout
  obtain ⟨out0, hopt, hfil⟩ := hout
  have hmapeq : out0.map (fun s => s.toBasicShortSpellInfo)
      = (List.insertionSort rowNameLE
          (st.spellTable.filter (fun r =>
            (((rc.book_filter.filter (·.2)).map (·.1))).contains r.book_alias))).map
        basicRowOf :=
    optList_map_eq (fun a b hb => convertRow_basic hb) hopt
  have hsorted : (List.insertionSort rowNameLE
      (st.spellTable.filter (fun r =>
        (((rc.book_filter.filter (·.2)).map (·.1))).contains r.book_alias))).Pairwise
      rowNameLE :=
    List.sorted_insertionSort rowNameLE _
  have hperm1 : (out.map (fun s => s.toBasicShortSpellInfo)).Perm
      ((st.spellTable.filter (fun r =>
          ((rc.book_filter.filter (·.2)).map (·.1)).contains r.book_alias
            && ciContains r.name q)).map basicRowOf) := by
    have e1 : out.map (fun s => s.toBasicShortSpellInfo)
        = ((List.insertionSort rowNameLE
            (st.spellTable.filter (fun r =>
              (((rc.book_filter.filter (·.2)).map (·.1))).contains r.book_alias))).filter
          (fun r => strContains (strLower r.name) q)).map basicRowOf := by
      rw [← hfil]
      calc (out0.filter (fun s => strContains (strLower s.name) q)).map
            (fun s => s.toBasicShortSpellInfo)
          = (out0.map (fun s => s.toBasicShortSpellInfo)).filter
              (fun bsc => strContains (strLower bsc.name) q) :=
            (filter_map_comm (fun s : ShortSpellInfo => s.toBasicShortSpellInfo)
              (fun bsc => strContains (strLower bsc.name) q) out0).symm
        _ = ((List.insertionSort rowNameLE
              (st.spellTable.filter (fun r =>
                (((rc.book_filter.filter (·.2)).map (·.1))).contains r.book_alias))).map
              basicRowOf).filter (fun bsc => strContains (strLower bsc.name) q) := by
            rw [hmapeq]
        _ = ((List.insertionSort rowNameLE
              (st.spellTable.filter (fun r =>
                (((rc.book_filter.filter (·.2)).map (·.1))).contains r.book_alias))).filter
            (fun r => strContains (strLower r.name) q)).map basicRowOf :=
            filter_map_comm basicRowOf
              (fun bsc => strContains (strLower bsc.name) q) _
    rw [e1]
    refine List.Perm.map basicRowOf ?_
    have hp := (List.perm_insertionSort rowNameLE
      (st.spellTable.filter (fun r =>
        (((rc.book_filter.filter (·.2)).map (·.1))).contains r.book_alias))).filter
      (fun r => strContains (strLower r.name) q)
    refine hp.trans ?_
    rw [List.filter_filter]
    refine List.Perm.of_eq (List.filter_congr ?_)
    intro r _
    unfold ciContains
    rw [hq]
    exact Bool.and_comm _ _
  refine ⟨hperm1, ?_, ?_⟩
  · have h1 : ((List.insertionSort rowNameLE
        (st.spellTable.filter (fun r =>
          (((rc.book_filter.filter (·.2)).map (·.1))).contains r.book_alias))).map
        basicRowOf).Pairwise (fun a b => nameLeb a.name.data b.name.data = true) := by
      rw [List.pairwise_map]
      exact hsorted.imp (fun h => h)
    have h2 := hmapeq ▸ h1
    rw [List.pairwise_map] at h2
    have h3 : out0.Pairwise (fun a b => nameLeb a.name.data b.name.data = true) :=
      h2.imp (fun h => h)
    rw [← hfil]
    exact h3.sublist (List.filter_sublist _)
  · intro hq0
    subst hq0
    refine hperm1.trans (List.Perm.of_eq ?_)
    refine congrArg (List.map basicRowOf) (List.filter_congr ?_)
    intro r _
    have : ciContains r.name "" = true := by
      unfold ciContains
      rw [strLower_empty]
      exact strContains_empty _
    rw [this, Bool.and_true]

/-- Store for the claim C3 counterexample and witness: one core-rulebook
spell named `Fireball`, chat 7 including that book. -/
def c3Store : Store :=
  ⟨[], [], [mkSpellRow "fireball" "Fireball" "coreRulebook"],
    [⟨7, [("coreRulebook", true)]⟩]⟩

/-- Claim C3, counterexample.  The query `FIRE` (uppercase) case-insensitively
matches the stored, book-included spell `Fireball`, yet the search returns
the empty list: the code checks `q in name.lower()` without lowercasing `q`,
so the claim's case-insensitive contract fails as stated. -/
theorem claim3_counterexample :
    (iter_short_spell_info_by_name "FIRE" (some 7) c3Store).1 = some [] ∧
    ciContains "Fireball" "FIRE" = true ∧
    (c3Store.spellTable.filter (fun r =>
        ((([("coreRulebook", true)] : List (String × Bool)).filter (·.2)).map (·.1)).contains
          r.book_alias && ciContains r.name "FIRE")) ≠ [] := by
  refine ⟨by decide, by decide, by decide⟩

/-- The single-spell result of the name search on `c3Store`. -/
def c3Out : List ShortSpellInfo :=
  [{ basicRowOf (mkSpellRow "fireball" "Fireball" "coreRulebook") with
      schools := [], classes := [] }]

/-- Claim C3, witness for the amended theorem at lowercase query `fire` and
at the empty query. -/
theorem claim3_witness :
    (c3Out.map (fun s => s.toBasicShortSpellInfo)).Perm
      ((c3Store.spellTable.filter (fun r =>
          (((⟨7, [("coreRulebook", true)]⟩ : ChatRow).book_filter.filter (·.2)).map
            (·.1)).contains r.book_alias
            && ciContains r.name "fire")).map basicRowOf) ∧
    c3Out.Pairwise (fun a b => nameLeb a.name.data b.name.data = true) ∧
    (c3Out.map (fun s => s.toBasicShortSpellInfo)).Perm
      ((c3Store.spellTable.filter (fun r =>
          (((⟨7, [("coreRulebook", true)]⟩ : ChatRow).book_filter.filter (·.2)).map
            (·.1)).contains r.book_alias)).map basicRowOf) := by
  have h1 := claim3_theorem c3Store "fire" 7 ⟨7, [("coreRulebook", true)]⟩ c3Out
    (by decide) (by decide) (by decide) (by decide)
  have h2 := claim3_theorem c3Store "" 7 ⟨7, [("coreRulebook", true)]⟩ c3Out
    (by decide) (by decide) (by decide) (by decide)
  exact ⟨h1.1, h1.2.1, h2.2.2 rfl⟩

/-! ## Claim C4 -/

theorem ceil_div_succ (P n : Nat) (hP : 0 < P) (hn : 1 ≤ n) :
    (n + P - 1) / P = (n - P + P - 1) / P + 1 := by
  rcases le_or_lt n P with hle | hlt
  · have h0 : n - P = 0 := by omega
    rw [h0]
    have h1 : (0 + P - 1) / P = 0 := Nat.div_eq_of_lt (by omega)
    rw [h1]
    have h2 : n + P - 1 = (n - 1) + 1 * P := by omega
    rw [h2, Nat.add_mul_div_right _ _ hP]
    have h3 : (n - 1) / P = 0 := Nat.div_eq_of_lt (by omega)
    omega
  · have ha : n - P + P - 1 = n - 1 := by omega
    have hb : n + P - 1 = (n - 1) + 1 * P := by omega
    rw [ha, hb, Nat.add_mul_div_right _ _ hP]

theorem length_le_mul_ceil_div (P n : Nat) (hP : 0 < P) : n ≤ P * ((n + P - 1) / P) := by
  have h1 := Nat.div_add_mod (n + P - 1) P
  have h2 := Nat.mod_lt (n + P - 1) hP
  omega

theorem pages_join {α : Type} (P : Nat) (hP : 0 < P) :
    ∀ (n : Nat) (l : List α), l.length = n →
      ((List.range ((l.length + P - 1) / P)).map (fun i => (l.drop (P * i)).take P)).flatten
        = l := by
  intro n
  induction n using Nat.strong_induction_on with
  | _ n ih =>
    intro l hl
    cases l with
    | nil =>
      have h0 : (List.length ([] : List α) + P - 1) / P = 0 := by
        simp only [List.length_nil]
        exact Nat.div_eq_of_lt (by omega)
      rw [h0]
      rfl
    | cons a t =>
      have hn1 : 1 ≤ (a :: t).length := by simp
      have hdroplen : ((a :: t).drop P).length = (a :: t).length - P := by
        rw [List.length_drop]
      have hceil : ((a :: t).length + P - 1) / P
          = (((a :: t).drop P).length + P - 1) / P + 1 := by
        rw [hdroplen]
        exact ceil_div_succ P _ hP hn1
      rw [hceil, List.range_succ_eq_map, List.map_cons, List.flatten_cons, List.map_map]
      have hmap : ∀ i ∈ List.range ((((a :: t).drop P).length + P - 1) / P),
          ((fun i => ((a :: t).drop (P * i)).take P) ∘ Nat.succ) i
            = (((a :: t).drop P).drop (P * i)).take P := by
        intro i _
        simp only [Function.comp]
        rw [List.drop_drop]
        congr 2
        rw [Nat.mul_succ]
        omega
      rw [List.map_congr_left hmap]
      have hih := ih ((a :: t).length - P)
        (by omega)
        ((a :: t).drop P) hdroplen
      rw [hdroplen] at hih
      rw [show (((a :: t).drop P).length + P - 1) / P
            = (((a :: t).length - P) + P - 1) / P from by rw [hdroplen]]
      rw [hih]
      rw [Nat.mul_zero, List.drop_zero, List.take_append_drop]

/-- Claim C4.  For the full class/level result set `all`, every `paginate`
call reports `ceil(N / P)` total pages and the python slice of its page; the
concatenation of pages `0 .. ceil(N/P) - 1` reproduces `all` exactly, and the
page one past the end is an empty slice, not an error. -/
theorem claim4_theorem (class_id level : Int) (st : Store) (P : Nat)
    (all : List ShortSpellInfo) (hP : 0 < P)
    (hall : (iter_short_spell_info_by_class_level class_id level none st).1 = some all) :
    (∀ page, (paginate_short_info_by_level class_id level none page P st).1
        = some ((all.length + P - 1) / P, (all.drop (P * page)).take P)) ∧
    ((List.range ((all.length + P - 1) / P)).map
        (fun i => (all.drop (P * i)).take P)).flatten = all ∧
    (all.drop (P * ((all.length + P - 1) / P))).take P = [] := by
  refine ⟨?_, pages_join P hP all.length all rfl, ?_⟩
  · intro page
    simp only [paginate_short_info_by_level, hall, Option.map_some']
  · have hle : all.length ≤ P * ((all.length + P - 1) / P) :=
      length_le_mul_ceil_div P all.length hP
    rw [List.drop_eq_nil_of_le hle]
    simp

/-- Three spell rows castable by class 1 at level 3, with the class present
in the class table so that row conversion resolves. -/
def c4Store : Store :=
  ⟨[mkClass 1 "wizard" "Wizard"], [],
    [{ mkSpellRow "alarm" "Alarm" "coreRulebook" with classes := [(1, 3)] },
      { mkSpellRow "bless" "Bless" "coreRulebook" with classes := [(1, 3)] },
      { mkSpellRow "charm" "Charm" "coreRulebook" with classes := [(1, 3)] }], []⟩

/-- The converted result set of `c4Store` for class 1, level 3. -/
def c4All : List ShortSpellInfo :=
  [{ basicRowOf { mkSpellRow "alarm" "Alarm" "coreRulebook" with classes := [(1, 3)] } with
      schools := [], classes := [restrictionOf (mkClass 1 "wizard" "Wizard") 3] },
    { basicRowOf { mkSpellRow "bless" "Bless" "coreRulebook" with classes := [(1, 3)] } with
      schools := [], classes := [restrictionOf (mkClass 1 "wizard" "Wizard") 3] },
    { basicRowOf { mkSpellRow "charm" "Charm" "coreRulebook" with classes := [(1, 3)] } with
      schools := [], classes := [restrictionOf (mkClass 1 "wizard" "Wizard") 3] }]

/-- Claim C4, witness: three matching spells with page size two give two
pages whose concatenation is the full set, and page two is empty. -/
theorem claim4_witness :
    (paginate_short_info_by_level 1 3 none 0 2 c4Store).1
      = some ((c4All.length + 2 - 1) / 2, (c4All.drop (2 * 0)).take 2) ∧
    ((List.range ((c4All.length + 2 - 1) / 2)).map
        (fun i => (c4All.drop (2 * i)).take 2)).flatten = c4All ∧
    (c4All.drop (2 * ((c4All.length + 2 - 1) / 2))).take 2 = [] := by
  have h := claim4_theorem 1 3 c4Store 2 c4All (by decide) (by decide)
  exact ⟨h.1 0, h.2.1, h.2.2⟩

/-! ## Claim C5 -/

/-- A world whose cache already holds the target file. -/
def c5HitWorld : HctiWorld := ⟨["tables/s/0.png"], fun _ => none, fun _ _ => false⟩

/-- A world without the file, where render and download succeed. -/
def c5MissWorld : HctiWorld := ⟨[], fun _ => some "u", fun _ _ => true⟩

/-- `c5MissWorld` after a successful first `find_or_create` call. -/
def c5CreatedWorld : HctiWorld := { c5MissWorld with files := ["tables/s/0.png"] }

/-- Claim C5.  On an existing file, `find_or_create` performs zero render and
zero download calls and returns a `SpellTable` for that path with no render
url; consequently, after a first call that created the file, the second call
performs zero calls and both calls return the same path. -/
theorem claim5_theorem (w : HctiWorld) (html path : String) :
    (path ∈ w.files → find_or_create html path w = (⟨html, none, path⟩, w, 0, 0)) ∧
    (∀ t1 w1 rc dc, find_or_create html path w = (t1, w1, rc, dc) → path ∈ w1.files →
      t1.path = path ∧ find_or_create html path w1 = (⟨html, none, path⟩, w1, 0, 0)) := by
  constructor
  · intro hmem
    unfold find_or_create
    rw [if_pos hmem]
  · intro t1 w1 rc dc heq hmem
    have hpath : t1.path = path := by
      unfold find_or_create at heq
      split at heq
      · cases heq; rfl
      · split at heq
        · cases heq; rfl
        · split at heq
          · cases heq; rfl
          · cases heq; rfl
    refine ⟨hpath, ?_⟩
    unfold find_or_create
    rw [if_pos hmem]

/-- Claim C5, witness: a concrete cache hit, and a concrete second call after
a successful first render created the file. -/
theorem claim5_witness :
    find_or_create "<table/>" "tables/s/0.png" c5HitWorld
      = (⟨"<table/>", none, "tables/s/0.png"⟩, c5HitWorld, 0, 0) ∧
    (SpellTableV.path ⟨"<table/>", some "u", "tables/s/0.png"⟩ = "tables/s/0.png" ∧
      find_or_create "<table/>" "tables/s/0.png" c5CreatedWorld
        = (⟨"<table/>", none, "tables/s/0.png"⟩, c5CreatedWorld, 0, 0)) :=
  ⟨(claim5_theorem c5HitWorld "<table/>" "tables/s/0.png").1 (by decide),
   (claim5_theorem c5MissWorld "<table/>" "tables/s/0.png").2
     ⟨"<table/>", some "u", "tables/s/0.png"⟩ c5CreatedWorld 1 1 rfl (by decide)⟩

/-! ## Claim C6 -/

/-- A world in which the render service answers without a `"url"` key and
downloads fail: the modelled render failure. -/
def c6FailWorld : HctiWorld := ⟨[], fun _ => none, fun _ _ => false⟩

/-- Claim C6, counterexample.  When the render fails for the only table
fragment of a spell, `full_info` does not omit the table: the result still
contains one `SpellTable`, with no url and with a path at which no file
exists. -/
theorem claim6_counterexample :
    (fullInfoTables "fireball" ["<table>x</table>"] c6FailWorld).1
      = [⟨"<table>x</table>", none, "tables/fireball/0.png"⟩] ∧
    "tables/fireball/0.png" ∉ ((fullInfoTables "fireball" ["<table>x</table>"] c6FailWorld).2).files := by
  constructor
  · rfl
  · decide

theorem find_or_create_html (html path : String) (w : HctiWorld) :
    (find_or_create html path w).1.html = html := by
  unfold find_or_create
  split
  · rfl
  · split
    · rfl
    · split <;> rfl

theorem fullInfoTables_go_html (alias' : String) :
    ∀ (l : List String) (idx : Nat) (w : HctiWorld),
      ((fullInfoTables.go alias' idx l w).1).map (fun t => t.html) = l := by
  intro l
  induction l with
  | nil => intro idx w; rfl
  | cons h t ih =>
    intro idx w
    simp only [fullInfoTables.go]
    rcases hfc : find_or_create h ("tables/" ++ alias' ++ "/" ++ toString idx ++ ".png") w
      with ⟨tbl, w1, rc, dc⟩
    simp only [hfc]
    rcases hgo : fullInfoTables.go alias' (idx + 1) t w1 with ⟨rest, w2⟩
    simp only [hgo, List.map_cons]
    have h1 : tbl.html = h := by
      have := find_or_create_html h ("tables/" ++ alias' ++ "/" ++ toString idx ++ ".png") w
      rw [hfc] at this
      exact this
    have h2 := ih (idx + 1) w1
    rw [hgo] at h2
    rw [h1, h2]

/-- Claim C6, amended.  The two failure modes the code catches (a render
answer without a url, a failed download) do not raise out of the table loop
of `full_info`, but the failed table is not omitted either: the delivered
list always carries exactly one `SpellTable` per extracted fragment, with its
original html, even when its url is empty and its path has no file.  (A
network failure of the render POST itself is not caught and would
propagate.) -/
theorem claim6_theorem (alias' : String) (htmls : List String) (w : HctiWorld) :
    ((fullInfoTables alias' htmls w).1).map (fun t => t.html) = htmls :=
  fullInfoTables_go_html alias' htmls 0 w

/-! ## Claim C7 -/

/-- Extended-info fixture. -/
def c7Info : ExtInfoV := ⟨"Fireball", "evocation", [("Range", "long")], "text"⟩

/-- Database slice fixture: one spell with id 1 and no extended rows. -/
def c7Db : ExtDb := ⟨[(1, "fireball")], []⟩

/-- The extended row the first call commits. -/
def c7Row : ExtRow := mkExtRow c7Info (some 1) []

/-- The database slice after the first call. -/
def c7Db1 : ExtDb := ⟨[(1, "fireball")], [c7Row]⟩

/-- Claim C7, counterexample.  The second `create_extended_spell_info` call
for the same alias does not succeed: the unique constraint on the owning
foreign key `short_spell_info_id` raises `IntegrityError`, so no second
record is produced. -/
theorem claim7_counterexample :
    create_extended_spell_info c7Db "fireball" c7Info [] = Except.ok (c7Db1, c7Row) ∧
    create_extended_spell_info c7Db1 "fireball" c7Info [] = Except.error () := by
  constructor
  · rfl
  · rfl

/-- Claim C7, amended.  For an alias that resolves to a stored spell with no
extended record yet, the first `create_extended_spell_info` call succeeds and
commits one record owned by that spell; a second call for the same alias
fails with `IntegrityError` (the `unique=True` owning foreign key), leaving
the single record in place. -/
theorem claim7_theorem (db : ExtDb) (a : String) (i : Int) (info info2 : ExtInfoV)
    (tables tables2 : List SpellTableV)
    (hid : lookupSpellId db a = some i)
    (hfresh : ∀ r ∈ db.ext, r.short_spell_info_id ≠ some i) :
    create_extended_spell_info db a info tables
      = Except.ok ({ db with ext := db.ext ++ [mkExtRow info (some i) tables] },
          mkExtRow info (some i) tables) ∧
    create_extended_spell_info { db with ext := db.ext ++ [mkExtRow info (some i) tables] }
        a info2 tables2 = Except.error () := by
  have hany : db.ext.any (fun r => decide (r.short_spell_info_id = some i)) = false := by
    rw [← Bool.not_eq_true, List.any_eq_true]
    rintro ⟨r, hr, hdec⟩
    exact hfresh r hr (by simpa using hdec)
  constructor
  · unfold create_extended_spell_info
    rw [hid]
    simp only [Option.isSome_some, Bool.true_and, hany]
    rfl
  · unfold create_extended_spell_info
    have hid2 : lookupSpellId { db with ext := db.ext ++ [mkExtRow info (some i) tables] } a
        = some i := hid
    rw [hid2]
    have hany2 : (db.ext ++ [mkExtRow info (some i) tables]).any
        (fun r => decide (r.short_spell_info_id = some i)) = true := by
      rw [List.any_eq_true]
      exact ⟨mkExtRow info (some i) tables, by simp, by simp [mkExtRow]⟩
    simp only [Option.isSome_some, Bool.true_and, hany2]
    rfl

/-! ## Chat-filter lemmas (claims C8 and C9) -/

theorem lookupChat_id {ct : List ChatRow} {c : Int} {r : ChatRow}
    (h : lookupChat ct c = some r) : r.chat_id = c := by
  have := List.find?_some h
  simpa using this

theorem lookupChat_map_update (ct : List ChatRow) (X : Int) (nf : List (String × Bool))
    (Y : Int) :
    lookupChat (ct.map (fun q => if q.chat_id = X then { q with book_filter := nf } else q)) Y
      = (lookupChat ct Y).map
          (fun q => if q.chat_id = X then { q with book_filter := nf } else q) := by
  induction ct with
  | nil => rfl
  | cons q t ih =>
    show lookupChat ((if q.chat_id = X then { q with book_filter := nf } else q) :: _) Y = _
    unfold lookupChat
    rw [List.find?_cons, List.find?_cons]
    have hid : (if q.chat_id = X then { q with book_filter := nf } else q).chat_id
        = q.chat_id := by
      split <;> rfl
    by_cases hq : q.chat_id = Y
    · rw [hid]
      simp [hq]
    · rw [hid]
      simp only [hq, decide_False]
      exact ih

theorem lookupChat_append_of_none {ct : List ChatRow} {c : Int} {r : ChatRow}
    (h : lookupChat ct c = none) (hr : r.chat_id = c) :
    lookupChat (ct ++ [r]) c = some r := by
  unfold lookupChat at *
  rw [List.find?_append, h]
  simp [hr]

theorem flipBook_key_any (bf : List (String × Bool)) (b k : String) :
    (flipBook bf b).any (fun kv => decide (kv.1 = k)) = bf.any (fun kv => decide (kv.1 = k)) := by
  unfold flipBook
  induction bf with
  | nil => rfl
  | cons kv t ih =>
    simp only [List.map_cons, List.any_cons, ih]
    have : (if kv.1 = b then (kv.1, !kv.2) else kv).1 = kv.1 := by split <;> rfl
    rw [this]

theorem flipBook_flipBook (bf : List (String × Bool)) (b : String) :
    flipBook (flipBook bf b) b = bf := by
  unfold flipBook
  rw [List.map_map]
  have : ∀ kv ∈ bf,
      ((fun kv : String × Bool => if kv.1 = b then (kv.1, !kv.2) else kv) ∘
        (fun kv : String × Bool => if kv.1 = b then (kv.1, !kv.2) else kv)) kv = kv := by
    intro kv _
    obtain ⟨k1, v1⟩ := kv
    by_cases hk : k1 = b <;> simp [Function.comp, hk]
  rw [List.map_congr_left this]
  simp

theorem lookupVal_flipBook_ne (bf : List (String × Bool)) (b k : String) (h : k ≠ b) :
    lookupVal (flipBook bf b) k = lookupVal bf k := by
  unfold flipBook lookupVal
  induction bf with
  | nil => rfl
  | cons kv t ih =>
    simp only [List.map_cons, List.find?_cons]
    have hid : (if kv.1 = b then (kv.1, !kv.2) else kv).1 = kv.1 := by split <;> rfl
    rw [hid]
    by_cases hk : kv.1 = k
    · have hb : ¬ kv.1 = b := fun hb => h (hk ▸ hb ▸ rfl)
      simp [hk, hb, h]
    · simp only [hk, decide_False]
      exact ih

theorem lookupVal_flipBook_self (bf : List (String × Bool)) (b : String) :
    lookupVal (flipBook bf b) b = (lookupVal bf b).map (fun v => !v) := by
  unfold flipBook lookupVal
  induction bf with
  | nil => rfl
  | cons kv t ih =>
    simp only [List.map_cons, List.find?_cons]
    have hid : (if kv.1 = b then (kv.1, !kv.2) else kv).1 = kv.1 := by split <;> rfl
    rw [hid]
    by_cases hk : kv.1 = b
    · simp [hk]
    · simp only [hk, decide_False]
      exact ih

theorem lookupVal_overwrite_self (d : List (String × Bool)) (k : String) (v : Bool)
    (h : d.any (fun p => decide (p.1 = k)) = true) :
    lookupVal (d.map (fun p => if p.1 = k then (k, v) else p)) k = some v := by
  unfold lookupVal
  induction d with
  | nil => cases h
  | cons p t ih =>
    simp only [List.map_cons, List.find?_cons]
    by_cases hp : p.1 = k
    · simp [hp]
    · simp only [hp, if_false, decide_False]
      rw [List.any_cons] at h
      simp only [hp, decide_False, Bool.false_or] at h
      exact ih h

theorem lookupVal_overwrite_ne (d : List (String × Bool)) (k k' : String) (v : Bool)
    (h : k' ≠ k) :
    lookupVal (d.map (fun p => if p.1 = k then (k, v) else p)) k' = lookupVal d k' := by
  unfold lookupVal
  induction d with
  | nil => rfl
  | cons p t ih =>
    simp only [List.map_cons, List.find?_cons]
    by_cases hp : p.1 = k
    · have h1 : ¬ ((k : String) = k') := fun he => h he.symm
      have h2 : ¬ (p.1 = k') := fun he => h (hp ▸ he : (k : String) = k').symm
      simp only [hp, if_true, h1, h2, decide_False]
      exact ih
    · simp only [hp, if_false]
      by_cases hk' : p.1 = k'
      · simp [hk']
      · simp only [hk', decide_False]
        exact ih

theorem lookupVal_append_ne (d : List (String × Bool)) (k k' : String) (v : Bool)
    (h : k' ≠ k) :
    lookupVal (d ++ [(k, v)]) k' = lookupVal d k' := by
  unfold lookupVal
  rw [List.find?_append]
  cases hf : d.find? (fun p => decide (p.1 = k')) with
  | some p => simp
  | none => simp [Ne.symm h]

theorem lookupVal_dictSet_self (d : List (String × Bool)) (k : String) (v : Bool) :
    lookupVal (dictSet d k v) k = some v := by
  unfold dictSet
  split
  · rename_i h
    exact lookupVal_overwrite_self d k v h
  · unfold lookupVal
    rw [List.find?_append]
    cases hf : d.find? (fun p => decide (p.1 = k)) with
    | some p =>
      exfalso
      rename_i hany
      have hmem := List.mem_of_find?_eq_some hf
      have hp := List.find?_some hf
      have : d.any (fun p => decide (p.1 = k)) = true := List.any_eq_true.2 ⟨p, hmem, hp⟩
      exact hany this
    | none => simp

theorem lookupVal_dictSet_ne (d : List (String × Bool)) (k k' : String) (v : Bool)
    (h : k' ≠ k) :
    lookupVal (dictSet d k v) k' = lookupVal d k' := by
  unfold dictSet
  split
  · exact lookupVal_overwrite_ne d k k' v h
  · exact lookupVal_append_ne d k k' v h

theorem lookupVal_map_false {books : List String} {b : String} (h : b ∈ books) :
    lookupVal (books.map (fun b => (b, false))) b = some false := by
  unfold lookupVal
  induction books with
  | nil => cases h
  | cons x t ih =>
    simp only [List.map_cons, List.find?_cons]
    by_cases hx : x = b
    · simp [hx]
    · simp only [hx, decide_False]
      rcases List.mem_cons.1 h with he | ht
      · exact absurd he.symm hx
      · exact ih ht

theorem lookupVal_any {d : List (String × Bool)} {k : String} {v : Bool}
    (h : lookupVal d k = some v) : d.any (fun kv => decide (kv.1 = k)) = true := by
  unfold lookupVal at h
  rcases hf : d.find? (fun p => decide (p.1 = k)) with _ | p
  · rw [hf] at h; cases h
  · have hmem := List.mem_of_find?_eq_some hf
    have hp := List.find?_some hf
    exact List.any_eq_true.2 ⟨p, hmem, hp⟩

theorem update_book_filter_found {st : Store} {X : Int} {rX : ChatRow} {B : String}
    (hX : lookupChat st.chatTable X = some rX)
    (hB : rX.book_filter.any (fun kv => decide (kv.1 = B)) = true) :
    update_book_filter X B st =
      (some (flipBook rX.book_filter B),
        { st with chatTable :=
            st.chatTable.map (fun q =>
              if q.chat_id = X then
                { q with book_filter := flipBook rX.book_filter B }
              else q) }) := by
  unfold update_book_filter get_or_create_chat_settings
  rw [hX]
  simp only [hB, if_true]

/-! ## Claim C8 -/

/-- Claim C8.  Toggling book `B` for chat `X` flips exactly that key of
`X`'s filter, leaves every other chat's row (here `Y`) untouched, and a
second toggle restores `X`'s original filter. -/
theorem claim8_theorem (st : Store) (X Y : Int) (rX rY : ChatRow) (B : String)
    (hXY : X ≠ Y)
    (hX : lookupChat st.chatTable X = some rX)
    (hY : lookupChat st.chatTable Y = some rY)
    (hBX : rX.book_filter.any (fun kv => decide (kv.1 = B)) = true)
    (hBY : rY.book_filter.any (fun kv => decide (kv.1 = B)) = true) :
    (update_book_filter X B st).1 = some (flipBook rX.book_filter B) ∧
    lookupChat ((update_book_filter X B st).2).chatTable Y = some rY ∧
    (update_book_filter X B ((update_book_filter X B st).2)).1 = some rX.book_filter ∧
    (∀ kk, kk ≠ B → lookupVal (flipBook rX.book_filter B) kk = lookupVal rX.book_filter kk) ∧
    lookupVal (flipBook rX.book_filter B) B = (lookupVal rX.book_filter B).map (fun v => !v) := by
  have h1 := update_book_filter_found hX hBX
  have hrXid := lookupChat_id hX
  have hrYid := lookupChat_id hY
  refine ⟨by rw [h1], ?_, ?_, ?_, ?_⟩
  · rw [h1]
    dsimp only
    rw [lookupChat_map_update, hY]
    simp only [Option.map_some']
    rw [if_neg (by rw [hrYid]; exact fun he => hXY he.symm)]
  · have hX2 : lookupChat
        ((update_book_filter X B st).2).chatTable X
        = some { rX with book_filter := flipBook rX.book_filter B } := by
      rw [h1]
      dsimp only
      rw [lookupChat_map_update, hX]
      simp only [Option.map_some']
      rw [if_pos hrXid]
    have hB2 : ({ rX with book_filter := flipBook rX.book_filter B } : ChatRow).book_filter.any
        (fun kv => decide (kv.1 = B)) = true := by
      simpa [flipBook_key_any] using hBX
    have h2 := update_book_filter_found hX2 hB2
    rw [h2]
    dsimp only
    rw [flipBook_flipBook]
  · intro kk hkk
    exact lookupVal_flipBook_ne rX.book_filter B kk hkk
  · exact lookupVal_flipBook_self rX.book_filter B

/-- Chat-settings fixture with two chats. -/
def c8Store : Store :=
  ⟨[], [], [],
    [⟨1, [("coreRulebook", true), ("ultimateMagic", false)]⟩, ⟨2, [("coreRulebook", false)]⟩]⟩

/-- Claim C8, witness at a concrete store with chats 1 and 2 sharing the book
`coreRulebook`. -/
theorem claim8_witness :
    (update_book_filter 1 "coreRulebook" c8Store).1
      = some (flipBook [("coreRulebook", true), ("ultimateMagic", false)] "coreRulebook") ∧
    lookupChat ((update_book_filter 1 "coreRulebook" c8Store).2).chatTable 2
      = some ⟨2, [("coreRulebook", false)]⟩ ∧
    (update_book_filter 1 "coreRulebook" ((update_book_filter 1 "coreRulebook" c8Store).2)).1
      = some [("coreRulebook", true), ("ultimateMagic", false)] ∧
    lookupVal (flipBook [("coreRulebook", true), ("ultimateMagic", false)] "coreRulebook")
        "ultimateMagic"
      = lookupVal [("coreRulebook", true), ("ultimateMagic", false)] "ultimateMagic" := by
  have h := claim8_theorem c8Store 1 2
    ⟨1, [("coreRulebook", true), ("ultimateMagic", false)]⟩ ⟨2, [("coreRulebook", false)]⟩
    "coreRulebook" (by decide) (by decide) (by decide) (by decide) (by decide)
  exact ⟨h.1, h.2.1, h.2.2.1, h.2.2.2.1 "ultimateMagic" (by decide)⟩

/-! ## Claim C9 -/

/-- A store whose known rulebooks are `coreRulebook`, `advancedPlayerGuide`
and `ultimateMagic`, with no chat settings yet. -/
def c9Store : Store :=
  ⟨[], [],
    [mkSpellRow "fireball" "Fireball" "coreRulebook",
      mkSpellRow "shield" "Shield" "advancedPlayerGuide",
      mkSpellRow "bladeBarrier" "Blade Barrier" "ultimateMagic"], []⟩

/-- Claim C9, counterexample.  Chat 42 has never accessed settings, yet the
first `get_or_create` returns a filter in which the known rulebook
`advancedPlayerGuide` — distinct from `coreRulebook` — maps to `true`,
contradicting "every other known rulebook identifier maps to false". -/
theorem claim9_counterexample :
    lookupChat c9Store.chatTable 42 = none ∧
    "advancedPlayerGuide" ∈ rulebooks c9Store ∧
    "advancedPlayerGuide" ≠ "coreRulebook" ∧
    lookupVal (get_or_create_chat_settings 42 c9Store).1.book_filter "advancedPlayerGuide"
      = some true := by
  decide

/-- Claim C9, amended.  For a chat with no settings row, the first
`get_or_create` returns the default filter: `coreRulebook` *and*
`advancedPlayerGuide` map to `true` and every other known rulebook maps to
`false`; a subsequent toggle of `coreRulebook` for that chat returns a filter
in which `coreRulebook` maps to `false`. -/
theorem claim9_theorem (st : Store) (c : Int)
    (hnew : lookupChat st.chatTable c = none) :
    lookupVal (get_or_create_chat_settings c st).1.book_filter "coreRulebook" = some true ∧
    lookupVal (get_or_create_chat_settings c st).1.book_filter "advancedPlayerGuide"
      = some true ∧
    (∀ b ∈ rulebooks st, b ≠ "coreRulebook" → b ≠ "advancedPlayerGuide" →
      lookupVal (get_or_create_chat_settings c st).1.book_filter b = some false) ∧
    ((update_book_filter c "coreRulebook" (get_or_create_chat_settings c st).2).1).map
        (fun nf => lookupVal nf "coreRulebook") = some (some false) := by
  have hg : get_or_create_chat_settings c st =
      (⟨c, default_book_filter (rulebooks st)⟩,
        { st with chatTable := st.chatTable ++ [⟨c, default_book_filter (rulebooks st)⟩] }) := by
    unfold get_or_create_chat_settings
    rw [hnew]
  have hcore : lookupVal (default_book_filter (rulebooks st)) "coreRulebook" = some true := by
    unfold default_book_filter
    rw [lookupVal_dictSet_ne _ _ _ _ (by decide), lookupVal_dictSet_self]
  have hapg : lookupVal (default_book_filter (rulebooks st)) "advancedPlayerGuide"
      = some true := by
    unfold default_book_filter
    rw [lookupVal_dictSet_self]
  refine ⟨by rw [hg]; exact hcore, by rw [hg]; exact hapg, ?_, ?_⟩
  · intro b hb hbc hba
    rw [hg]
    simp only
    unfold default_book_filter
    rw [lookupVal_dictSet_ne _ _ _ _ hba, lookupVal_dictSet_ne _ _ _ _ hbc]
    exact lookupVal_map_false hb
  · have hX2 : lookupChat ((get_or_create_chat_settings c st).2).chatTable c
        = some ⟨c, default_book_filter (rulebooks st)⟩ := by
      rw [hg]
      exact lookupChat_append_of_none hnew rfl
    have hB2 : (⟨c, default_book_filter (rulebooks st)⟩ : ChatRow).book_filter.any
        (fun kv => decide (kv.1 = "coreRulebook")) = true :=
      lookupVal_any hcore
    have h2 := update_book_filter_found hX2 hB2
    rw [h2]
    simp only [Option.map_some']
    rw [lookupVal_flipBook_self, hcore]
    rfl

/-- Claim C9, witness for the amended theorem at the concrete store. -/
theorem claim9_witness :
    lookupVal (get_or_create_chat_settings 42 c9Store).1.book_filter "coreRulebook"
      = some true ∧
    lookupVal (get_or_create_chat_settings 42 c9Store).1.book_filter "ultimateMagic"
      = some false ∧
    ((update_book_filter 42 "coreRulebook" (get_or_create_chat_settings 42 c9Store).2).1).map
        (fun nf => lookupVal nf "coreRulebook") = some (some false) := by
  have h := claim9_theorem c9Store 42 (by decide)
  exact ⟨h.1, h.2.2.1 "ultimateMagic" (by decide) (by decide) (by decide), h.2.2.2⟩

/-- Claim C7, witness for the amended theorem at the concrete fixture. -/
theorem claim7_witness :
    create_extended_spell_info c7Db "fireball" c7Info []
      = Except.ok ({ c7Db with ext := c7Db.ext ++ [mkExtRow c7Info (some 1) []] },
          mkExtRow c7Info (some 1) []) ∧
    create_extended_spell_info { c7Db with ext := c7Db.ext ++ [mkExtRow c7Info (some 1) []] }
        "fireball" c7Info [] = Except.error () :=
  claim7_theorem c7Db "fireball" 1 c7Info c7Info [] [] (by decide) (by decide)

end SpellsBot
